import Mathlib

/-!
Formal model of the agentcal geospatial route-scheduling engine.

The development shallowly embeds the four core components of the repository:

* the distance / travel-time model (`src/server/utils/distance.ts`),
* the nearest-neighbor route optimizer (`src/server/utils/routeOptimizer.ts`),
* the smart scheduler (`src/server/utils/smartScheduler.ts`),
* the booking orchestrator (`src/server/utils/bookingOrchestrator.ts`),

together with the in-memory storage operations they rely on.

Conventions of the embedding:

* Wall-clock times are hour/minute pairs (`HM`); the repository stores them as
  zero-padded "HH:MM" strings, for which lexicographic string comparison and
  chronological comparison agree, so comparisons are modelled on minutes.
* Calendar days are abstract day indices (`Nat`); the repository only ever
  compares dates for same-day equality.
* Distances are rationals.  The Haversine distance function of the source is a
  transcendental real-valued function; it enters the model only as an abstract
  metric parameter `dist : Loc → Loc → ℚ`, while every arithmetic step
  downstream of it (travel-time ceilings, comparisons, accumulation) is
  embedded exactly.
* JavaScript `Array.prototype.sort` (a stable sort) is modelled by Mathlib's
  stable `List.insertionSort` on the source's comparator.
* `Map` iteration (`Array.from(map.values())`) preserves insertion order and is
  modelled by lists.
* Timestamps (`new Date()` for `respondedAt`) are abstract `Nat` instants
  passed in as a `now` parameter.
-/

namespace AgentCal

/-- A latitude/longitude pair (decimal degrees), as parsed by `parseFloat`. -/
structure Loc where
  lat : ℚ
  lng : ℚ
deriving DecidableEq

/-- A wall-clock time of day, the parsed form of an "HH:MM" string. -/
structure HM where
  h : Nat
  m : Nat
deriving DecidableEq

/-- `timeToMinutes` of the source: minutes since midnight. -/
def HM.toMin (t : HM) : ℤ := 60 * t.h + t.m

/-! ## Travel-time model

`estimateTravelTime` is `src/server/utils/distance.ts` (25 mph, +2 min buffer,
5 min floor); `smartCalculateTravelTime` is the local `calculateTravelTime` of
`smartScheduler.ts` (35 mph, raw ceiling); `orchCalculateTravelTime` is the
local `calculateTravelTime` of `bookingOrchestrator.ts` (default 55 km/h, raw
ceiling). -/

/-- `estimateTravelTime` from `distance.ts`. -/
def estimateTravelTime (distanceInMiles : ℚ) : ℤ :=
  let avgSpeedMph : ℚ := 25
  let timeInHours : ℚ := distanceInMiles / avgSpeedMph
  let timeInMinutes : ℤ := ⌈timeInHours * 60⌉
  max (timeInMinutes + 2) 5

/-- `calculateTravelTime` from `smartScheduler.ts`. -/
def smartCalculateTravelTime (distance : ℚ) : ℤ :=
  ⌈(distance / 35) * 60⌉

/-- `calculateTravelTime` from `bookingOrchestrator.ts`; the average speed
defaults to 55 and no caller overrides it. -/
def orchCalculateTravelTime (distanceKm : ℚ) (avgSpeedKmh : ℚ := 55) : ℤ :=
  ⌈(distanceKm / avgSpeedKmh) * 60⌉

/-! ## Data model

Entity records carry exactly the fields the embedded code paths read or write.
`latitude`/`longitude` decimal strings are modelled as an optional parsed
coordinate pair (`coords`); a JS-falsy latitude/longitude (null or empty
string) corresponds to `none`.  `isBooked` is the string flag of the schema
("true"/"false"). -/

structure Client where
  id : String
  agentId : String
  name : String
  email : Option String
  phone : Option String
  preferredDays : Option (List String)
  preferredTimeSlots : Option (List String)
  notes : Option String
deriving DecidableEq

structure Property where
  id : String
  coords : Option Loc
deriving DecidableEq

structure ShowingSlot where
  id : String
  propertyId : String
  date : Nat
  startTime : HM
  endTime : HM
  isBooked : String
  bookedBy : Option String
  maxCapacity : Nat
deriving DecidableEq

structure PropertyPreference where
  id : String
  clientId : String
  propertyId : String
  priority : Option ℤ
deriving DecidableEq

structure Appointment where
  id : String
  agentId : String
  propertyId : String
  clientId : Option String
  clientName : String
  clientEmail : Option String
  clientPhone : Option String
  scheduledDay : Nat
  scheduledTime : HM
  duration : ℤ
  status : String
  notes : Option String
  bookingRequestId : Option String
deriving DecidableEq

structure BookingRequest where
  id : String
  agentId : String
  propertyId : String
  slotId : String
  clientIds : List String
  status : String
  notes : Option String
  travelTimeFromPrevious : Option ℤ
  distanceFromPrevious : Option ℚ
  requestedAt : Nat
  respondedAt : Option Nat
deriving DecidableEq

/-- The in-memory store (`MemStorage`).  JS `Map`s preserve insertion order, so
each table is a list; `Map.set` on an existing key updates in place, on a new
key appends.  `randomUUID` is modelled by a counter-generated fresh id. -/
structure Storage where
  clients : List Client
  properties : List Property
  showingSlots : List ShowingSlot
  appointments : List Appointment
  bookingRequests : List BookingRequest
  propertyPreferences : List PropertyPreference
  nextId : Nat
deriving DecidableEq

def freshId (st : Storage) : String := "id-" ++ toString st.nextId

/-! ## Storage operations (src/unnamed/part_002, `MemStorage`) -/

def getClient (st : Storage) (id : String) : Option Client :=
  st.clients.find? (fun c => c.id = id)

def getClientsByAgent (st : Storage) (agentId : String) : List Client :=
  st.clients.filter (fun c => c.agentId = agentId)

def getProperty (st : Storage) (id : String) : Option Property :=
  st.properties.find? (fun p => p.id = id)

def getPreferencesByClient (st : Storage) (clientId : String) : List PropertyPreference :=
  st.propertyPreferences.filter (fun p => p.clientId = clientId)

def getShowingSlot (st : Storage) (id : String) : Option ShowingSlot :=
  st.showingSlots.find? (fun s => s.id = id)

/-- `getAvailableSlots`: slots of the property on the given day that are not
yet booked (`isBooked === "false"`). -/
def getAvailableSlots (st : Storage) (propertyId : String) (date : Nat) : List ShowingSlot :=
  st.showingSlots.filter
    (fun s => s.propertyId = propertyId ∧ s.isBooked = "false" ∧ s.date = date)

def getAllShowingSlots (st : Storage) : List ShowingSlot :=
  st.showingSlots

def getBookingRequest (st : Storage) (id : String) : Option BookingRequest :=
  st.bookingRequests.find? (fun r => r.id = id)

/-- `getBookingRequestsByDate`: the agent's requests whose slot falls on the
given day. -/
def getBookingRequestsByDate (st : Storage) (agentId : String) (date : Nat) :
    List BookingRequest :=
  st.bookingRequests.filter (fun r =>
    (r.agentId == agentId) && (getShowingSlot st r.slotId).elim false (fun s => s.date == date))

/-- `createAppointment`: assign a fresh id and append. -/
def createAppointment (st : Storage) (mk : String → Appointment) : Appointment × Storage :=
  let appt := mk (freshId st)
  (appt, { st with appointments := st.appointments ++ [appt], nextId := st.nextId + 1 })

/-- `createBookingRequest`: assign a fresh id and append. -/
def createBookingRequest (st : Storage) (mk : String → BookingRequest) :
    BookingRequest × Storage :=
  let req := mk (freshId st)
  (req, { st with bookingRequests := st.bookingRequests ++ [req], nextId := st.nextId + 1 })

/-- `updateShowingSlot` as called by the smart scheduler: flip `isBooked` and
set `bookedBy`, in place. -/
def bookSlot (st : Storage) (slotId : String) (clientId : String) : Storage :=
  { st with showingSlots := st.showingSlots.map (fun s =>
      if s.id = slotId then { s with isBooked := "true", bookedBy := some clientId } else s) }

/-- `updateBookingRequest` restricted to a field patch, in place. -/
def updateBookingRequest (st : Storage) (id : String) (patch : BookingRequest → BookingRequest) :
    Storage :=
  { st with bookingRequests := st.bookingRequests.map (fun r =>
      if r.id = id then patch r else r) }

/-! ## Booking orchestrator (src/server/utils/bookingOrchestrator.ts)

`generateBookingRequests` is threaded through an explicit storage state; the
Haversine helper is the abstract metric `dist`.  The selection walk is a
single forward pass over time-sorted slot candidates with a moving
time/location cursor. -/

structure SlotCandidate where
  slot : ShowingSlot
  property : Property
  startMinutes : ℤ
  endMinutes : ℤ
  clientIds : List String
deriving DecidableEq

structure BookingCandidate where
  slot : ShowingSlot
  property : Property
  clientIds : List String
  travelTimeFromPrevious : Option ℤ
  distanceFromPrevious : Option ℚ
deriving DecidableEq

/-- Insert one (propertyId, clientId) preference into the propertyId → clientIds
map; JS `Map.set` keeps an existing key in place and appends a new one. -/
def addToPropMap (m : List (String × List String)) (pid cid : String) :
    List (String × List String) :=
  if m.any (fun e => e.1 = pid) then
    m.map (fun e => if e.1 = pid then (e.1, e.2 ++ [cid]) else e)
  else m ++ [(pid, [cid])]

/-- Build the propertyId → interested-clientIds map across the valid clients. -/
def propertyClientMap (st : Storage) (validClients : List Client) :
    List (String × List String) :=
  validClients.foldl (fun m c =>
    (getPreferencesByClient st c.id).foldl (fun m2 pref => addToPropMap m2 pref.propertyId c.id) m)
    []

/-- Slot ids already referenced by a pending or confirmed booking request of
this agent on this date. -/
def bookedSlotIds (st : Storage) (agentId : String) (date : Nat) : List String :=
  ((getBookingRequestsByDate st agentId date).filter
    (fun r => r.status = "pending" ∨ r.status = "confirmed")).map (fun r => r.slotId)

/-- Step 3 of `generateBookingRequests`: turn one relevant slot into a
candidate, or skip it. -/
def candidateOfSlot (pcm : List (String × List String)) (validProperties : List Property)
    (booked : List String) (slot : ShowingSlot) : Option SlotCandidate :=
  if slot.isBooked = "true" ∨ slot.id ∈ booked then none
  else
    match validProperties.find? (fun p => p.id = slot.propertyId),
      (pcm.find? (fun e => e.1 = slot.propertyId)).map (fun e => e.2) with
    | some property, some clientsInterested =>
      if clientsInterested.length > 0 then
        if clientsInterested.length ≤ slot.maxCapacity then
          some { slot := slot, property := property,
                 startMinutes := slot.startTime.toMin, endMinutes := slot.endTime.toMin,
                 clientIds := clientsInterested }
        else none
      else none
    | _, _ => none

/-- The unsorted slot-candidate list of a `generateBookingRequests` run. -/
def orchSlotCandidates (st : Storage) (agentId : String) (date : Nat)
    (clientIds : List String) : List SlotCandidate :=
  let validClients := clientIds.filterMap (getClient st)
  let pcm := propertyClientMap st validClients
  let relevantSlots := st.showingSlots.filter (fun s => s.date = date)
  let booked := bookedSlotIds st agentId date
  let validProperties := (pcm.map (fun e => e.1)).filterMap (getProperty st)
  relevantSlots.filterMap (candidateOfSlot pcm validProperties booked)

/-- Candidates sorted ascending by start time
(`slotCandidates.sort((a, b) => a.startMinutes - b.startMinutes)`). -/
def orchSortCandidates (l : List SlotCandidate) : List SlotCandidate :=
  l.insertionSort (fun a b => a.startMinutes - b.startMinutes ≤ 0)

/-- The moving cursor of the selection walk. -/
structure OrchCursor where
  selected : List BookingCandidate
  bookedProperties : List String
  currentTime : ℤ
  currentLocation : Loc
deriving DecidableEq

/-- Step 4 of `generateBookingRequests`: the forward pass over time-sorted
candidates. -/
def orchWalk (dist : Loc → Loc → ℚ) (startM endM : ℤ) :
    OrchCursor → List SlotCandidate → OrchCursor
  | cur, [] => cur
  | cur, c :: cs =>
    if c.startMinutes < startM ∨ endM < c.endMinutes then orchWalk dist startM endM cur cs
    else if c.property.id ∈ cur.bookedProperties then orchWalk dist startM endM cur cs
    else
      match c.property.coords with
      | none => orchWalk dist startM endM cur cs
      | some pl =>
        let distance := dist cur.currentLocation pl
        let travelTime := orchCalculateTravelTime distance
        if cur.currentTime + travelTime > c.startMinutes then orchWalk dist startM endM cur cs
        else
          orchWalk dist startM endM
            { selected := cur.selected ++
                [{ slot := c.slot, property := c.property, clientIds := c.clientIds,
                   travelTimeFromPrevious :=
                     if cur.selected.length > 0 then some travelTime else none,
                   distanceFromPrevious :=
                     if cur.selected.length > 0 then some distance else none }],
              bookedProperties := cur.bookedProperties ++ [c.property.id],
              currentTime := c.endMinutes,
              currentLocation := pl } cs

/-- Step 5: persist one booking request per accepted candidate. -/
def persistBooking (agentId : String) (now : Nat) (acc : List BookingRequest × Storage)
    (b : BookingCandidate) : List BookingRequest × Storage :=
  let (req, st2) := createBookingRequest acc.2 (fun id =>
    { id := id, agentId := agentId, propertyId := b.property.id, slotId := b.slot.id,
      clientIds := b.clientIds, status := "pending",
      notes := some ("Automated booking request for " ++ toString b.clientIds.length
        ++ " client(s)"),
      travelTimeFromPrevious := b.travelTimeFromPrevious,
      distanceFromPrevious := b.distanceFromPrevious,
      requestedAt := now, respondedAt := none })
  (acc.1 ++ [req], st2)

/-- `generateBookingRequests(storage, agentId, date, clientIds, startLocation,
startTime, endTime)`.  Returns the created requests and the updated storage, or
the thrown error message. -/
def generateBookingRequests (st : Storage) (agentId : String) (date : Nat)
    (clientIds : List String) (startLocation : Loc) (startTime : HM) (endTime : HM)
    (dist : Loc → Loc → ℚ) (now : Nat) : Except String (List BookingRequest × Storage) :=
  let validClients := clientIds.filterMap (getClient st)
  if validClients.length = 0 then .error "No valid clients found"
  else
    let cands := orchSortCandidates (orchSlotCandidates st agentId date clientIds)
    let cur := orchWalk dist startTime.toMin endTime.toMin
      { selected := [], bookedProperties := [],
        currentTime := startTime.toMin, currentLocation := startLocation } cands
    .ok (cur.selected.foldl (persistBooking agentId now) ([], st))

/-- The appointment-creation step of `confirmBookingRequest`: one appointment
at the slot's time window per resolved client, a silently skipped entry per
unresolved one. -/
def mkConfirmAppt (request : BookingRequest) (slot : ShowingSlot) (requestId : String)
    (client : Client) (id : String) : Appointment :=
  { id := id, agentId := request.agentId, propertyId := request.propertyId,
    clientId := some client.id, clientName := client.name,
    clientEmail := client.email, clientPhone := client.phone,
    scheduledDay := slot.date, scheduledTime := slot.startTime,
    duration := slot.endTime.toMin - slot.startTime.toMin, status := "scheduled",
    notes := some "Confirmed from booking request",
    bookingRequestId := some requestId }

def confirmApptStep (request : BookingRequest) (slot : ShowingSlot) (requestId : String)
    (acc : Storage) (oc : Option Client) : Storage :=
  match oc with
  | none => acc
  | some client =>
    (createAppointment acc (mkConfirmAppt request slot requestId client)).2

/-- `confirmBookingRequest(storage, requestId)`; `now` stands for the
`new Date()` timestamp written into `respondedAt`. -/
def confirmBookingRequest (st : Storage) (requestId : String) (now : Nat) :
    Except String Storage :=
  match getBookingRequest st requestId with
  | none => .error "Booking request not found"
  | some request =>
    if request.status ≠ "pending" then .error "Only pending requests can be confirmed"
    else
      match getShowingSlot st request.slotId with
      | none => .error "Showing slot not found"
      | some slot =>
        let clients := request.clientIds.map (getClient st)
        let st2 := clients.foldl (confirmApptStep request slot requestId) st
        .ok (updateBookingRequest st2 requestId (fun r =>
          { r with status := "confirmed", respondedAt := some now }))

/-- The notes written by `rejectBookingRequest`: JS truthiness of `reason`
keeps the old notes when the reason is absent or the empty string, and
otherwise REPLACES them with the string "Rejected: " followed by the reason. -/
def rejectNotes (reason : Option String) (oldNotes : Option String) : Option String :=
  match reason with
  | some rsn => if rsn = "" then oldNotes else some ("Rejected: " ++ rsn)
  | none => oldNotes

/-- `rejectBookingRequest(storage, requestId, reason?)`. -/
def rejectBookingRequest (st : Storage) (requestId : String) (reason : Option String)
    (now : Nat) : Except String Storage :=
  match getBookingRequest st requestId with
  | none => .error "Booking request not found"
  | some request =>
    if request.status ≠ "pending" then .error "Only pending requests can be rejected"
    else
      .ok (updateBookingRequest st requestId (fun r =>
        { r with status := "rejected", respondedAt := some now,
                 notes := rejectNotes reason request.notes }))

/-! ## Smart scheduler (src/server/utils/smartScheduler.ts)

`generateSmartSchedule` is embedded with an explicit storage state, the
weekday name precomputed (`date.toLocaleDateString` is locale machinery), and
the Haversine helper as the abstract metric `dist`.  The structure returned
additionally carries a ghost trace recording, for every loop iteration, the
pool and cursor at selection time and the chosen candidate; the trace is
written only where the source schedules an appointment and does not influence
control flow. -/

structure ScheduleCandidate where
  client : Client
  property : Property
  slot : ShowingSlot
  preference : PropertyPreference
deriving DecidableEq

/-- The time-of-day bucket of a start hour. -/
def timeSlotOf (h : Nat) : String :=
  if h < 12 then "morning" else if h < 17 then "afternoon" else "evening"

/-- Step 1 and 2 of `generateSmartSchedule`: clients available on the weekday,
their preferences, matching unbooked slots filtered by preferred time slots. -/
def smartCandidates (st : Storage) (agentId : String) (dayOfWeek : String) (date : Nat) :
    List ScheduleCandidate :=
  let availableClients := (getClientsByAgent st agentId).filter (fun c =>
    c.preferredDays.elim false (fun l => dayOfWeek ∈ l))
  availableClients.flatMap (fun client =>
    (getPreferencesByClient st client.id).flatMap (fun preference =>
      match getProperty st preference.propertyId with
      | none => []
      | some property =>
        ((getAvailableSlots st preference.propertyId date).filter (fun slot =>
          client.preferredTimeSlots.elim false
            (fun l => timeSlotOf slot.startTime.h ∈ l))).map (fun slot =>
          { client := client, property := property, slot := slot,
            preference := preference })))

/-- JS `priority || 99`: null, undefined and 0 are all falsy. -/
def effPriority (p : Option ℤ) : ℤ :=
  match p with
  | none => 99
  | some v => if v = 0 then 99 else v

/-- The sort comparator of step 3.  The raw priorities are compared for
inequality BEFORE the `|| 99` defaulting is applied; `localeCompare` on the
zero-padded "HH:MM" strings is chronological comparison. -/
def smartCmp (a b : ScheduleCandidate) : ℤ :=
  if a.preference.priority ≠ b.preference.priority then
    effPriority a.preference.priority - effPriority b.preference.priority
  else
    a.slot.startTime.toMin - b.slot.startTime.toMin

/-- Step 3: the stable sort by `smartCmp`. -/
def smartSort (l : List ScheduleCandidate) : List ScheduleCandidate :=
  l.insertionSort (fun a b => smartCmp a b ≤ 0)

/-- Step 4 preamble: keep the first candidate of each client-property pair. -/
def dedupClientProperty (l : List ScheduleCandidate) : List ScheduleCandidate :=
  (l.foldl (fun (acc : List ScheduleCandidate × List String) cand =>
    if (cand.client.id ++ "-" ++ cand.property.id) ∈ acc.2 then acc
    else (acc.1 ++ [cand], acc.2 ++ [cand.client.id ++ "-" ++ cand.property.id])) ([], [])).1

/-- The candidate scan of the scheduling loop: iterate over the pool keeping
the feasible candidate of strictly smallest distance (`Infinity` start is the
`none` accumulator); source skip order: missing coordinates, visited slot,
slot starts before arrival. -/
def pickBestAux (dist : Loc → Loc → ℚ) (loc : Loc) (t : ℤ) (visited : List String) :
    List ScheduleCandidate → Nat → Option (Nat × ScheduleCandidate × ℚ) →
    Option (Nat × ScheduleCandidate × ℚ)
  | [], _, best => best
  | c :: cs, i, best =>
    match c.property.coords with
    | none => pickBestAux dist loc t visited cs (i + 1) best
    | some pl =>
      if c.slot.id ∈ visited then pickBestAux dist loc t visited cs (i + 1) best
      else
        if c.slot.startTime.toMin < t + smartCalculateTravelTime (dist loc pl) then
          pickBestAux dist loc t visited cs (i + 1) best
        else
          match best with
          | none => pickBestAux dist loc t visited cs (i + 1) (some (i, c, dist loc pl))
          | some (bi, bc, bd) =>
            if dist loc pl < bd then
              pickBestAux dist loc t visited cs (i + 1) (some (i, c, dist loc pl))
            else pickBestAux dist loc t visited cs (i + 1) (some (bi, bc, bd))

def pickBest (dist : Loc → Loc → ℚ) (loc : Loc) (t : ℤ) (visited : List String)
    (pool : List ScheduleCandidate) : Option (Nat × ScheduleCandidate × ℚ) :=
  pickBestAux dist loc t visited pool 0 none

/-- Ghost record of one scheduling-loop iteration. -/
structure SmartStep where
  pool : List ScheduleCandidate
  loc : Loc
  time : ℤ
  visited : List String
  chosen : ScheduleCandidate
  chosenIdx : Nat
  chosenDist : ℚ

/-- The mutable state of the scheduling loop. -/
structure SmartState where
  storage : Storage
  appts : List Appointment
  visited : List String
  loc : Loc
  time : ℤ
  totalDistance : ℚ
  totalTravelTime : ℤ
  trace : List SmartStep

/-- JS `client.notes || 'No notes'`. -/
def smartApptNotes (notes : Option String) : String :=
  match notes with
  | some n => if n = "" then "No notes" else n
  | none => "No notes"

/-- The appointment created for a chosen candidate. -/
def mkSmartAppt (agentId : String) (date : Nat) (c : ScheduleCandidate)
    (id : String) : Appointment :=
  { id := id, agentId := agentId, propertyId := c.property.id,
    clientId := some c.client.id, clientName := c.client.name,
    clientEmail := c.client.email, clientPhone := c.client.phone,
    scheduledDay := date, scheduledTime := c.slot.startTime,
    duration := c.slot.endTime.toMin - c.slot.startTime.toMin, status := "scheduled",
    notes := some ("Smart scheduled - " ++ smartApptNotes c.client.notes),
    bookingRequestId := none }

/-- The body of one scheduling-loop iteration: create the appointment, mark
the slot booked, record the step, and (inside the source's coordinate guard,
always taken for a scanned candidate) accumulate the totals and advance the
cursor to the slot's end time and property location. -/
def smartAdvance (agentId : String) (date : Nat) (s : SmartState)
    (pool : List ScheduleCandidate) (i : Nat) (c : ScheduleCandidate) (d : ℚ) : SmartState :=
  let (appt, st2) := createAppointment s.storage (mkSmartAppt agentId date c)
  let st3 := bookSlot st2 c.slot.id c.client.id
  let base : SmartState :=
    { storage := st3, appts := s.appts ++ [appt], visited := s.visited ++ [c.slot.id],
      loc := s.loc, time := s.time, totalDistance := s.totalDistance,
      totalTravelTime := s.totalTravelTime,
      trace := s.trace ++
        [{ pool := pool, loc := s.loc, time := s.time, visited := s.visited,
           chosen := c, chosenIdx := i, chosenDist := d }] }
  match c.property.coords with
  | some pl =>
    { base with totalDistance := s.totalDistance + d,
                totalTravelTime := s.totalTravelTime + smartCalculateTravelTime d,
                loc := pl, time := c.slot.endTime.toMin }
  | none => base

/-- Step 4 of `generateSmartSchedule`: the chronological scheduling loop.  The
`while selectedCandidates.length > 0` loop removes exactly one candidate per
iteration (`splice`), so running it with fuel equal to the pool length is the
loop itself; the scan returns `none` exactly when the source breaks out. -/
def schedLoop (dist : Loc → Loc → ℚ) (agentId : String) (date : Nat) :
    Nat → SmartState → List ScheduleCandidate → SmartState
  | 0, s, _ => s
  | fuel + 1, s, pool =>
    match pickBest dist s.loc s.time s.visited pool with
    | none => s
    | some (i, c, d) =>
      schedLoop dist agentId date fuel (smartAdvance agentId date s pool i c d)
        (pool.eraseIdx i)

/-- The aggregate result record of `generateSmartSchedule`. -/
structure OptimizedScheduleResult where
  appointments : List Appointment
  totalDistance : ℚ
  totalTravelTime : ℤ
  clientsScheduled : Nat
  propertiesVisited : Nat

/-- `generateSmartSchedule(agentId, date, startingLocation, startTime)`.
Returns the result record, the final storage, and the ghost iteration trace. -/
def generateSmartSchedule (st : Storage) (agentId : String) (dayOfWeek : String)
    (date : Nat) (startingLocation : Loc) (startTime : HM) (dist : Loc → Loc → ℚ) :
    OptimizedScheduleResult × Storage × List SmartStep :=
  let availableClients := (getClientsByAgent st agentId).filter (fun c =>
    c.preferredDays.elim false (fun l => dayOfWeek ∈ l))
  if availableClients.length = 0 then
    ({ appointments := [], totalDistance := 0, totalTravelTime := 0,
       clientsScheduled := 0, propertiesVisited := 0 }, st, [])
  else
    let candidates := smartCandidates st agentId dayOfWeek date
    if candidates.length = 0 then
      ({ appointments := [], totalDistance := 0, totalTravelTime := 0,
         clientsScheduled := 0, propertiesVisited := 0 }, st, [])
    else
      let pool := dedupClientProperty (smartSort candidates)
      let sF := schedLoop dist agentId date pool.length
        { storage := st, appts := [], visited := [], loc := startingLocation,
          time := startTime.toMin, totalDistance := 0, totalTravelTime := 0,
          trace := [] } pool
      ({ appointments := sF.appts, totalDistance := sF.totalDistance,
         totalTravelTime := sF.totalTravelTime,
         clientsScheduled := ((sF.appts.map (fun a => a.clientId)).dedup).length,
         propertiesVisited := ((sF.appts.map (fun a => a.propertyId)).dedup).length },
       sF.storage, sF.trace)

/-- Claim-side reachability of step 5: the property has coordinates and the
agent can arrive before the slot starts. -/
def smartReach (dist : Loc → Loc → ℚ) (loc : Loc) (t : ℤ) (c : ScheduleCandidate) : Prop :=
  ∃ pl, c.property.coords = some pl ∧
    t + smartCalculateTravelTime (dist loc pl) ≤ c.slot.startTime.toMin

/-- The source-side filter of the scan: reachable and slot not yet visited. -/
def smartFeasible (dist : Loc → Loc → ℚ) (loc : Loc) (t : ℤ) (visited : List String)
    (c : ScheduleCandidate) : Prop :=
  smartReach dist loc t c ∧ c.slot.id ∉ visited

/-! ## Route optimizer (src/server/utils/routeOptimizer.ts)

`optimizeRoute` pairs appointments with their properties, falls back to input
order when nothing can be placed on the map, and otherwise orders the
coordinate-bearing items by the nearest-neighbor heuristic and accumulates
per-leg distance and travel time. -/

structure AppointmentWithProperty where
  appointment : Appointment
  property : Property
deriving DecidableEq

structure RouteStop where
  appointment : Appointment
  property : Property
  estimatedTravelTime : Option ℤ
  distanceFromPrevious : Option ℚ
deriving DecidableEq

structure DailySchedule where
  date : Nat
  agent : String
  stops : List RouteStop
  totalDistance : ℚ
  totalTravelTime : ℤ
  optimized : Bool
deriving DecidableEq

/-- The `parseFloat(item.property.latitude!)` non-null assertion: read the
coordinates, with a default that is never consulted on the valid-items path. -/
def itemLoc (item : AppointmentWithProperty) : Loc :=
  item.property.coords.getD { lat := 0, lng := 0 }

/-- The inner scan of `nearestNeighbor`: starting from the accumulator for
index 0 (`minDistance = Infinity` makes the first comparison always win),
keep the strictly closest unvisited item, ties to the first found. -/
def pickNearestAux (dist : Loc → Loc → ℚ) (cur : Loc) :
    List AppointmentWithProperty → Nat → Nat × ℚ → Nat × ℚ
  | [], _, best => best
  | item :: rest, i, best =>
    if dist cur (itemLoc item) < best.2 then
      pickNearestAux dist cur rest (i + 1) (i, dist cur (itemLoc item))
    else pickNearestAux dist cur rest (i + 1) best

/-- The `while (unvisited.length > 0)` loop of `nearestNeighbor`: each
iteration splices out exactly one item, so fuel equal to the number of
unvisited items runs the loop to completion. -/
def nnLoop (dist : Loc → Loc → ℚ) : Nat → AppointmentWithProperty →
    List AppointmentWithProperty → List AppointmentWithProperty
  | 0, _, _ => []
  | _ + 1, _, [] => []
  | fuel + 1, current, hd :: tl =>
    let pick := pickNearestAux dist (itemLoc current) tl 1
      (0, dist (itemLoc current) (itemLoc hd))
    let next := (hd :: tl).getD pick.1 hd
    next :: nnLoop dist fuel next ((hd :: tl).eraseIdx pick.1)

/-- `nearestNeighbor`: start from the first item in input order, then greedily
append the closest unvisited item. -/
def nearestNeighbor (dist : Loc → Loc → ℚ) (items : List AppointmentWithProperty) :
    List AppointmentWithProperty :=
  match items with
  | [] => []
  | first :: rest => first :: nnLoop dist rest.length first rest

/-- The stop-building loop of `optimizeRoute` for indices `i > 0`: per-leg
distance and `estimateTravelTime`, both accumulated into the totals. -/
def buildLegs (dist : Loc → Loc → ℚ) :
    AppointmentWithProperty → List AppointmentWithProperty → List RouteStop × ℚ × ℤ
  | _, [] => ([], 0, 0)
  | prev, cur :: rest =>
    let d := dist (itemLoc prev) (itemLoc cur)
    let res := buildLegs dist cur rest
    ({ appointment := cur.appointment, property := cur.property,
       estimatedTravelTime := some (estimateTravelTime d),
       distanceFromPrevious := some d } :: res.1,
     d + res.2.1, estimateTravelTime d + res.2.2)

/-- A stop with no travel-from-previous metrics (the first stop of a route,
and every stop of the fallback branches). -/
def noMetricsStop (item : AppointmentWithProperty) : RouteStop :=
  { appointment := item.appointment, property := item.property,
    estimatedTravelTime := none, distanceFromPrevious := none }

/-- `appointments.map(apt => properties.get(apt.propertyId) ...)` with the
null results filtered out. -/
def routeItems (appointments : List Appointment) (properties : List Property) :
    List AppointmentWithProperty :=
  appointments.filterMap (fun apt =>
    (properties.find? (fun p => p.id = apt.propertyId)).map
      (fun property => { appointment := apt, property := property }))

/-- The items whose property has both coordinates. -/
def routeValidItems (items : List AppointmentWithProperty) :
    List AppointmentWithProperty :=
  items.filter (fun item => item.property.coords.isSome)

/-- `optimizeRoute(appointments, properties, agent, date)`. -/
def optimizeRoute (appointments : List Appointment) (properties : List Property)
    (agent : String) (date : Nat) (dist : Loc → Loc → ℚ) : DailySchedule :=
  let appointmentsWithProps := routeItems appointments properties
  if appointmentsWithProps.length = 0 then
    { date := date, agent := agent, stops := [], totalDistance := 0,
      totalTravelTime := 0, optimized := true }
  else if appointmentsWithProps.length = 1 then
    { date := date, agent := agent,
      stops := appointmentsWithProps.map noMetricsStop,
      totalDistance := 0, totalTravelTime := 0, optimized := true }
  else
    let validItems := routeValidItems appointmentsWithProps
    if validItems.length = 0 then
      { date := date, agent := agent,
        stops := appointmentsWithProps.map noMetricsStop,
        totalDistance := 0, totalTravelTime := 0, optimized := false }
    else
      match nearestNeighbor dist validItems with
      | [] =>
        { date := date, agent := agent, stops := [], totalDistance := 0,
          totalTravelTime := 0, optimized := true }
      | first :: rest =>
        let legs := buildLegs dist first rest
        { date := date, agent := agent,
          stops := noMetricsStop first :: legs.1,
          totalDistance := legs.2.1, totalTravelTime := legs.2.2, optimized := true }

/-- The appointment/property pair carried by a stop. -/
def stopItem (s : RouteStop) : AppointmentWithProperty :=
  { appointment := s.appointment, property := s.property }

/-! ### Concrete route inputs

Three properties on a line at 0, 10 and 30 km, with their distance function
given as a finite table (the metric of the collinear configuration), plus a
property with no coordinates. -/

def locA4 : Loc := { lat := 0, lng := 0 }

def locB4 : Loc := { lat := 10, lng := 0 }

def locC4 : Loc := { lat := 30, lng := 0 }

def prA4 : Property := { id := "A", coords := some locA4 }

def prB4 : Property := { id := "B", coords := some locB4 }

def prC4 : Property := { id := "C", coords := some locC4 }

def prNC10 : Property := { id := "P", coords := none }

def aptOf4 (i pid : String) : Appointment :=
  { id := i, agentId := "a", propertyId := pid, clientId := none,
    clientName := "n", clientEmail := none, clientPhone := none,
    scheduledDay := 0, scheduledTime := { h := 9, m := 0 }, duration := 60,
    status := "scheduled", notes := none, bookingRequestId := none }

def aptA4 : Appointment := aptOf4 "a1" "A"

def aptB4 : Appointment := aptOf4 "a2" "B"

def aptC4 : Appointment := aptOf4 "a3" "C"

def aptNC10 : Appointment := aptOf4 "a4" "P"

def c4Apts : List Appointment := [aptA4, aptB4, aptC4]

def c4Props : List Property := [prA4, prB4, prC4]

/-- Distances of the collinear configuration 0 km – 10 km – 30 km, keyed on
the latitude coordinate. -/
def distTable (p q : Loc) : ℚ :=
  if p.lat = q.lat then 0
  else if (p.lat = 0 ∧ q.lat = 10) ∨ (p.lat = 10 ∧ q.lat = 0) then 10
  else if (p.lat = 10 ∧ q.lat = 30) ∨ (p.lat = 30 ∧ q.lat = 10) then 20
  else 30

/-! ## Concrete entities for witnesses -/

def clW : Client :=
  { id := "c1", agentId := "a", name := "Client One", email := none, phone := none,
    preferredDays := some ["Saturday"], preferredTimeSlots := some ["morning"], notes := none }

def prW : Property := { id := "p1", coords := some { lat := 0, lng := 0 } }

def slW : ShowingSlot :=
  { id := "s1", propertyId := "p1", date := 0, startTime := { h := 10, m := 0 },
    endTime := { h := 11, m := 0 }, isBooked := "false", bookedBy := none, maxCapacity := 2 }

def prefW : PropertyPreference :=
  { id := "pref1", clientId := "c1", propertyId := "p1", priority := some 1 }

def stW : Storage :=
  { clients := [clW], properties := [prW], showingSlots := [slW], appointments := [],
    bookingRequests := [], propertyPreferences := [prefW], nextId := 0 }

def distW : Loc → Loc → ℚ := fun _ _ => 0

def locW : Loc := { lat := 0, lng := 0 }

def c8Run : Except String (List BookingRequest × Storage) :=
  generateBookingRequests stW "a" 0 ["c1"] locW { h := 9, m := 0 } { h := 17, m := 0 } distW 0

def c8Res : List BookingRequest × Storage := c8Run.toOption.getD ([], stW)

def candW : SlotCandidate :=
  { slot := slW, property := prW, startMinutes := 600, endMinutes := 660, clientIds := ["c1"] }

def curW : OrchCursor :=
  { selected := [], bookedProperties := [], currentTime := 540, currentLocation := locW }

def candSmartW : ScheduleCandidate :=
  { client := clW, property := prW, slot := slW, preference := prefW }

def prNCW : Property := { id := "p2", coords := none }

def candNCW : ScheduleCandidate :=
  { client := clW, property := prNCW, slot := slW, preference := prefW }

def sW0 : SmartState :=
  { storage := stW, appts := [], visited := [], loc := locW, time := 480,
    totalDistance := 0, totalTravelTime := 0, trace := [] }

def slotAW : ShowingSlot :=
  { id := "sa", propertyId := "px", date := 0, startTime := { h := 10, m := 0 },
    endTime := { h := 11, m := 0 }, isBooked := "false", bookedBy := none, maxCapacity := 10 }

def slotBW : ShowingSlot :=
  { id := "sb", propertyId := "px", date := 0, startTime := { h := 9, m := 0 },
    endTime := { h := 10, m := 0 }, isBooked := "false", bookedBy := none, maxCapacity := 10 }

/-- A candidate with a missing priority and a 10:00 slot. -/
def caW : ScheduleCandidate :=
  { client := clW, property := prNCW, slot := slotAW,
    preference := { id := "pfa", clientId := "c1", propertyId := "px", priority := none } }

/-- A candidate with the explicit lowest priority 99 and a 09:00 slot. -/
def cbW : ScheduleCandidate :=
  { client := clW, property := prNCW, slot := slotBW,
    preference := { id := "pfb", clientId := "c1", propertyId := "px", priority := some 99 } }

/-- Candidates with present nonzero priorities for the amended sort witness. -/
def cp1W : ScheduleCandidate :=
  { client := clW, property := prNCW, slot := slotBW,
    preference := { id := "pf1", clientId := "c1", propertyId := "px", priority := some 1 } }

def cp2W : ScheduleCandidate :=
  { client := clW, property := prNCW, slot := slotAW,
    preference := { id := "pf2", clientId := "c1", propertyId := "px", priority := some 2 } }

def reqW : BookingRequest :=
  { id := "r1", agentId := "a", propertyId := "p1", slotId := "s1", clientIds := ["c1"],
    status := "pending", notes := some "old", travelTimeFromPrevious := none,
    distanceFromPrevious := none, requestedAt := 0, respondedAt := none }

def stW6 : Storage := { stW with bookingRequests := [reqW] }

def sW6 : SmartState :=
  { storage := stW6, appts := [], visited := [], loc := locW, time := 480,
    totalDistance := 0, totalTravelTime := 0, trace := [] }

def c7Rejected : Storage :=
  (rejectBookingRequest stW6 "r1" (some "no availability") 5).toOption.getD stW6

/-! ## Stable sorting

JavaScript's `Array.prototype.sort` is stable; we model it with Mathlib's
stable `List.insertionSort` applied to the relation "comparator ≤ 0".  The
sortedness lemmas below only assume totality/transitivity on the members of
the list being sorted, because one of the source comparators is not a total
preorder on the whole candidate type. -/

theorem pairwise_orderedInsert_of {α : Type} (r : α → α → Prop) [DecidableRel r]
    (a : α) (l : List α)
    (htot : ∀ x ∈ l, ¬ r a x → r x a)
    (htrans : ∀ x ∈ l, ∀ y ∈ l, r a x → r x y → r a y)
    (hl : l.Pairwise r) : (l.orderedInsert r a).Pairwise r := by
  induction l with
  | nil => simp
  | cons b l ih =>
    rcases List.pairwise_cons.mp hl with ⟨hb, hl2⟩
    by_cases hab : r a b
    · simp only [List.orderedInsert, if_pos hab]
      refine List.pairwise_cons.mpr ⟨?_, hl⟩
      intro y hy
      rcases List.mem_cons.mp hy with hy | hy
      · exact hy ▸ hab
      · exact htrans b (List.mem_cons_self _ _) y (List.mem_cons_of_mem _ hy) hab (hb y hy)
    · simp only [List.orderedInsert, if_neg hab]
      refine List.pairwise_cons.mpr ⟨?_, ?_⟩
      · intro y hy
        rcases (List.mem_orderedInsert r).mp hy with hy | hy
        · exact hy ▸ htot b (List.mem_cons_self _ _) hab
        · exact hb y hy
      · exact ih (fun x hx => htot x (List.mem_cons_of_mem _ hx))
          (fun x hx y hy => htrans x (List.mem_cons_of_mem _ hx) y (List.mem_cons_of_mem _ hy))
          hl2

theorem pairwise_insertionSort_of {α : Type} (r : α → α → Prop) [DecidableRel r]
    (l : List α)
    (htot : ∀ x ∈ l, ∀ y ∈ l, ¬ r x y → r y x)
    (htrans : ∀ x ∈ l, ∀ y ∈ l, ∀ z ∈ l, r x y → r y z → r x z) :
    (l.insertionSort r).Pairwise r := by
  induction l with
  | nil => simp
  | cons a l ih =>
    simp only [List.insertionSort]
    refine pairwise_orderedInsert_of r a _ ?_ ?_ ?_
    · intro x hx hax
      exact htot a (List.mem_cons_self _ _) x
        (List.mem_cons_of_mem _ ((List.mem_insertionSort r).mp hx)) hax
    · intro x hx y hy hax hxy
      exact htrans a (List.mem_cons_self _ _)
        x (List.mem_cons_of_mem _ ((List.mem_insertionSort r).mp hx))
        y (List.mem_cons_of_mem _ ((List.mem_insertionSort r).mp hy)) hax hxy
    · exact ih
        (fun x hx y hy => htot x (List.mem_cons_of_mem _ hx) y (List.mem_cons_of_mem _ hy))
        (fun x hx y hy z hz => htrans x (List.mem_cons_of_mem _ hx)
          y (List.mem_cons_of_mem _ hy) z (List.mem_cons_of_mem _ hz))

/-! ## Scheduler scan lemmas -/

/-- Full characterization of the scan: a `none` result means no feasible
candidate exists; a `some` result is either the incoming accumulator or a
feasible pool member carrying its own distance, and in either case its
distance is a lower bound on every feasible candidate's distance and on the
incoming accumulator. -/
theorem pickBestAux_spec (dist : Loc → Loc → ℚ) (loc : Loc) (t : ℤ) (visited : List String) :
    ∀ (cs : List ScheduleCandidate) (i : Nat) (best : Option (Nat × ScheduleCandidate × ℚ)),
    (pickBestAux dist loc t visited cs i best = none →
      best = none ∧ ∀ c' ∈ cs, ¬ smartFeasible dist loc t visited c') ∧
    (∀ j c d, pickBestAux dist loc t visited cs i best = some (j, c, d) →
      (best = some (j, c, d) ∨
        (smartFeasible dist loc t visited c ∧ c ∈ cs ∧
          ∃ pl, c.property.coords = some pl ∧ d = dist loc pl)) ∧
      (∀ c' ∈ cs, ∀ pl', c'.property.coords = some pl' → c'.slot.id ∉ visited →
        t + smartCalculateTravelTime (dist loc pl') ≤ c'.slot.startTime.toMin →
        d ≤ dist loc pl') ∧
      (∀ bj bc bd, best = some (bj, bc, bd) → d ≤ bd)) := by
  intro cs
  induction cs with
  | nil =>
    intro i best
    constructor
    · intro h
      exact ⟨h, by simp⟩
    · intro j c d h
      exact ⟨.inl h, by simp, fun bj bc bd hb => by rw [hb] at h; cases h; exact le_refl d⟩
  | cons c0 cs ih =>
    intro i best
    constructor
    · -- none case
      intro h
      rw [pickBestAux] at h
      cases hco : c0.property.coords with
      | none =>
        rw [hco] at h
        obtain ⟨hb, hall⟩ := (ih (i + 1) best).1 h
        refine ⟨hb, ?_⟩
        intro c' hc'
        rcases List.mem_cons.mp hc' with rfl | hc'
        · rintro ⟨⟨pl, hpl, -⟩, -⟩
          rw [hco] at hpl; cases hpl
        · exact hall c' hc'
      | some pl =>
        rw [hco] at h
        dsimp only [] at h
        by_cases hv : c0.slot.id ∈ visited
        · rw [if_pos hv] at h
          obtain ⟨hb, hall⟩ := (ih (i + 1) best).1 h
          refine ⟨hb, ?_⟩
          intro c' hc'
          rcases List.mem_cons.mp hc' with rfl | hc'
          · rintro ⟨-, hnv⟩
            exact hnv hv
          · exact hall c' hc'
        · rw [if_neg hv] at h
          by_cases htm : c0.slot.startTime.toMin < t + smartCalculateTravelTime (dist loc pl)
          · rw [if_pos htm] at h
            obtain ⟨hb, hall⟩ := (ih (i + 1) best).1 h
            refine ⟨hb, ?_⟩
            intro c' hc'
            rcases List.mem_cons.mp hc' with rfl | hc'
            · rintro ⟨⟨pl2, hpl2, hle⟩, -⟩
              rw [hco] at hpl2
              cases hpl2
              omega
            · exact hall c' hc'
          · rw [if_neg htm] at h
            cases hbest : best with
            | none =>
              rw [hbest] at h
              dsimp only [] at h
              obtain ⟨hb, -⟩ := (ih (i + 1) (some (i, c0, dist loc pl))).1 h
              cases hb
            | some b =>
              rcases b with ⟨bi, bc, bd⟩
              rw [hbest] at h
              dsimp only [] at h
              by_cases hlt : dist loc pl < bd
              · rw [if_pos hlt] at h
                obtain ⟨hb, -⟩ := (ih (i + 1) (some (i, c0, dist loc pl))).1 h
                cases hb
              · rw [if_neg hlt] at h
                obtain ⟨hb, -⟩ := (ih (i + 1) (some (bi, bc, bd))).1 h
                cases hb
    · -- some case
      intro j c d h
      rw [pickBestAux] at h
      cases hco : c0.property.coords with
      | none =>
        rw [hco] at h
        obtain ⟨h1, h2, h3⟩ := (ih (i + 1) best).2 j c d h
        refine ⟨?_, ?_, h3⟩
        · rcases h1 with h1 | ⟨hf, hm, hd⟩
          · exact .inl h1
          · exact .inr ⟨hf, List.mem_cons_of_mem _ hm, hd⟩
        · intro c' hc' pl' hpl' hnv hle
          rcases List.mem_cons.mp hc' with rfl | hc'
          · rw [hco] at hpl'; cases hpl'
          · exact h2 c' hc' pl' hpl' hnv hle
      | some pl =>
        rw [hco] at h
        dsimp only [] at h
        by_cases hv : c0.slot.id ∈ visited
        · rw [if_pos hv] at h
          obtain ⟨h1, h2, h3⟩ := (ih (i + 1) best).2 j c d h
          refine ⟨?_, ?_, h3⟩
          · rcases h1 with h1 | ⟨hf, hm, hd⟩
            · exact .inl h1
            · exact .inr ⟨hf, List.mem_cons_of_mem _ hm, hd⟩
          · intro c' hc' pl' hpl' hnv hle
            rcases List.mem_cons.mp hc' with rfl | hc'
            · exact absurd hv hnv
            · exact h2 c' hc' pl' hpl' hnv hle
        · rw [if_neg hv] at h
          by_cases htm : c0.slot.startTime.toMin < t + smartCalculateTravelTime (dist loc pl)
          · rw [if_pos htm] at h
            obtain ⟨h1, h2, h3⟩ := (ih (i + 1) best).2 j c d h
            refine ⟨?_, ?_, h3⟩
            · rcases h1 with h1 | ⟨hf, hm, hd⟩
              · exact .inl h1
              · exact .inr ⟨hf, List.mem_cons_of_mem _ hm, hd⟩
            · intro c' hc' pl' hpl' hnv hle
              rcases List.mem_cons.mp hc' with rfl | hc'
              · rw [hco] at hpl'
                cases hpl'
                omega
              · exact h2 c' hc' pl' hpl' hnv hle
          · rw [if_neg htm] at h
            have hfeas0 : smartFeasible dist loc t visited c0 :=
              ⟨⟨pl, hco, le_of_not_lt htm⟩, hv⟩
            cases hbest : best with
            | none =>
              rw [hbest] at h
              dsimp only [] at h
              obtain ⟨h1, h2, h3⟩ := (ih (i + 1) (some (i, c0, dist loc pl))).2 j c d h
              have hdle : d ≤ dist loc pl := h3 i c0 (dist loc pl) rfl
              refine ⟨?_, ?_, ?_⟩
              · rcases h1 with h1 | ⟨hf, hm, hd⟩
                · cases h1
                  exact .inr ⟨hfeas0, List.mem_cons_self _ _, pl, hco, rfl⟩
                · exact .inr ⟨hf, List.mem_cons_of_mem _ hm, hd⟩
              · intro c' hc' pl' hpl' hnv hle
                rcases List.mem_cons.mp hc' with rfl | hc'
                · rw [hco] at hpl'
                  cases hpl'
                  exact hdle
                · exact h2 c' hc' pl' hpl' hnv hle
              · intro bj bc bd hb
                cases hb
            | some b =>
              rcases b with ⟨bi, bc, bd⟩
              rw [hbest] at h
              dsimp only [] at h
              by_cases hlt : dist loc pl < bd
              · rw [if_pos hlt] at h
                obtain ⟨h1, h2, h3⟩ := (ih (i + 1) (some (i, c0, dist loc pl))).2 j c d h
                have hdle : d ≤ dist loc pl := h3 i c0 (dist loc pl) rfl
                refine ⟨?_, ?_, ?_⟩
                · rcases h1 with h1 | ⟨hf, hm, hd⟩
                  · cases h1
                    exact .inr ⟨hfeas0, List.mem_cons_self _ _, pl, hco, rfl⟩
                  · exact .inr ⟨hf, List.mem_cons_of_mem _ hm, hd⟩
                · intro c' hc' pl' hpl' hnv hle
                  rcases List.mem_cons.mp hc' with rfl | hc'
                  · rw [hco] at hpl'
                    cases hpl'
                    exact hdle
                  · exact h2 c' hc' pl' hpl' hnv hle
                · intro bj2 bc2 bd2 hb
                  cases hb
                  exact le_of_lt (lt_of_le_of_lt hdle hlt)
              · rw [if_neg hlt] at h
                obtain ⟨h1, h2, h3⟩ := (ih (i + 1) (some (bi, bc, bd))).2 j c d h
                have hdle : d ≤ bd := h3 bi bc bd rfl
                refine ⟨?_, ?_, ?_⟩
                · rcases h1 with h1 | ⟨hf, hm, hd⟩
                  · exact .inl h1
                  · exact .inr ⟨hf, List.mem_cons_of_mem _ hm, hd⟩
                · intro c' hc' pl' hpl' hnv hle
                  rcases List.mem_cons.mp hc' with rfl | hc'
                  · rw [hco] at hpl'
                    cases hpl'
                    exact le_trans hdle (le_of_not_lt hlt)
                  · exact h2 c' hc' pl' hpl' hnv hle
                · intro bj2 bc2 bd2 hb
                  cases hb
                  exact hdle

/-- The scan at the top level: `none` means no feasible candidate; `some`
returns a feasible pool member of minimal distance among the feasible. -/
theorem pickBest_spec {dist : Loc → Loc → ℚ} {loc : Loc} {t : ℤ} {visited : List String}
    {pool : List ScheduleCandidate} :
    (pickBest dist loc t visited pool = none →
      ∀ c' ∈ pool, ¬ smartFeasible dist loc t visited c') ∧
    (∀ j c d, pickBest dist loc t visited pool = some (j, c, d) →
      smartFeasible dist loc t visited c ∧ c ∈ pool ∧
      (∃ pl, c.property.coords = some pl ∧ d = dist loc pl) ∧
      (∀ c' ∈ pool, ∀ pl', c'.property.coords = some pl' → c'.slot.id ∉ visited →
        t + smartCalculateTravelTime (dist loc pl') ≤ c'.slot.startTime.toMin →
        d ≤ dist loc pl')) := by
  constructor
  · intro h
    exact ((pickBestAux_spec dist loc t visited pool 0 none).1 h).2
  · intro j c d h
    obtain ⟨h1, h2, -⟩ := (pickBestAux_spec dist loc t visited pool 0 none).2 j c d h
    rcases h1 with h1 | ⟨hf, hm, hd⟩
    · cases h1
    · exact ⟨hf, hm, hd, h2⟩

theorem schedLoop_eq_none {dist : Loc → Loc → ℚ} {agentId : String} {date : Nat}
    {s : SmartState} {pool : List ScheduleCandidate} (fuel : Nat)
    (h : pickBest dist s.loc s.time s.visited pool = none) :
    schedLoop dist agentId date fuel s pool = s := by
  cases fuel with
  | zero => rfl
  | succ fuel => rw [schedLoop, h]

theorem schedLoop_eq_some {dist : Loc → Loc → ℚ} {agentId : String} {date : Nat}
    {s : SmartState} {pool : List ScheduleCandidate} {i : Nat} {c : ScheduleCandidate} {d : ℚ}
    (fuel : Nat) (h : pickBest dist s.loc s.time s.visited pool = some (i, c, d)) :
    schedLoop dist agentId date (fuel + 1) s pool =
      schedLoop dist agentId date fuel (smartAdvance agentId date s pool i c d)
        (pool.eraseIdx i) := by
  rw [schedLoop, h]

/-- The fields of the advanced state when the chosen candidate has
coordinates (a scanned candidate always does). -/
theorem smartAdvance_fields {agentId : String} {date : Nat} {s : SmartState}
    {pool : List ScheduleCandidate} {i : Nat} {c : ScheduleCandidate} {d : ℚ} {pl : Loc}
    (hco : c.property.coords = some pl) :
    (smartAdvance agentId date s pool i c d).visited = s.visited ++ [c.slot.id] ∧
    (smartAdvance agentId date s pool i c d).time = c.slot.endTime.toMin ∧
    (smartAdvance agentId date s pool i c d).loc = pl ∧
    (smartAdvance agentId date s pool i c d).trace = s.trace ++
      [{ pool := pool, loc := s.loc, time := s.time, visited := s.visited,
         chosen := c, chosenIdx := i, chosenDist := d }] := by
  unfold smartAdvance
  rw [hco]
  exact ⟨rfl, rfl, rfl, rfl⟩

theorem smartAdvance_trace {agentId : String} {date : Nat} {s : SmartState}
    {pool : List ScheduleCandidate} {i : Nat} {c : ScheduleCandidate} {d : ℚ} :
    (smartAdvance agentId date s pool i c d).trace = s.trace ++
      [{ pool := pool, loc := s.loc, time := s.time, visited := s.visited,
         chosen := c, chosenIdx := i, chosenDist := d }] := by
  unfold smartAdvance
  cases c.property.coords <;> rfl

theorem smartAdvance_appts {agentId : String} {date : Nat} {s : SmartState}
    {pool : List ScheduleCandidate} {i : Nat} {c : ScheduleCandidate} {d : ℚ} :
    (smartAdvance agentId date s pool i c d).appts =
      s.appts ++ [(createAppointment s.storage (mkSmartAppt agentId date c)).1] := by
  unfold smartAdvance
  cases c.property.coords <;> rfl

/-- Travel times are nonnegative for nonnegative distances. -/
theorem smartCalculateTravelTime_nonneg {d : ℚ} (hd : 0 ≤ d) :
    0 ≤ smartCalculateTravelTime d := by
  unfold smartCalculateTravelTime
  exact Int.ceil_nonneg (by positivity)

/-- Hypothesis-free trace lemma: every trace entry of a loop run is either
pre-existing or records a chosen candidate that was a member of its recorded
pool, itself a sub-pool of the loop's initial pool. -/
theorem schedLoop_trace_pool (dist : Loc → Loc → ℚ) (agentId : String) (date : Nat) :
    ∀ (fuel : Nat) (pool : List ScheduleCandidate) (s : SmartState),
    ∀ step ∈ (schedLoop dist agentId date fuel s pool).trace,
      step ∈ s.trace ∨ (step.chosen ∈ step.pool ∧ step.pool ⊆ pool) := by
  intro fuel
  induction fuel with
  | zero =>
    intro pool s step hstep
    exact .inl hstep
  | succ n ih =>
    intro pool s step hstep
    cases hpb : pickBest dist s.loc s.time s.visited pool with
    | none =>
      rw [schedLoop_eq_none _ hpb] at hstep
      exact .inl hstep
    | some r =>
      rcases r with ⟨i, c, d⟩
      rw [schedLoop_eq_some _ hpb] at hstep
      rcases ih (pool.eraseIdx i) _ step hstep with h2 | ⟨hm, hsub⟩
      · rw [smartAdvance_trace] at h2
        rcases List.mem_append.mp h2 with h3 | h3
        · exact .inl h3
        · rcases List.mem_singleton.mp h3 with rfl
          obtain ⟨hf, hmem, -, -⟩ := pickBest_spec.2 i c d hpb
          exact .inr ⟨hmem, fun x hx => hx⟩
      · exact .inr ⟨hm, fun x hx => (List.eraseIdx_sublist pool i).subset (hsub hx)⟩

/-- Trace lemma with the reachability invariant: for well-formed pools
(positive-length slots, slot records determined by their ids) and a
nonnegative metric, every recorded step chose a reachable candidate of
minimal distance among the reachable candidates of its pool. -/
theorem schedLoop_trace_spec (dist : Loc → Loc → ℚ) (agentId : String) (date : Nat)
    (hd : ∀ a b, 0 ≤ dist a b) :
    ∀ (fuel : Nat) (pool : List ScheduleCandidate) (s : SmartState),
    (∀ c ∈ pool, c.slot.startTime.toMin < c.slot.endTime.toMin) →
    (∀ c ∈ pool, ∀ c2 ∈ pool, c.slot.id = c2.slot.id → c.slot = c2.slot) →
    (∀ c ∈ pool, c.slot.id ∈ s.visited → c.slot.endTime.toMin ≤ s.time) →
    ∀ step ∈ (schedLoop dist agentId date fuel s pool).trace,
      step ∈ s.trace ∨
      (smartReach dist step.loc step.time step.chosen ∧
       (∀ c' ∈ step.pool, ∀ pl pl', step.chosen.property.coords = some pl →
          c'.property.coords = some pl' → smartReach dist step.loc step.time c' →
          dist step.loc pl ≤ dist step.loc pl')) := by
  intro fuel
  induction fuel with
  | zero =>
    intro pool s hse huniq hinv step hstep
    exact .inl hstep
  | succ n ih =>
    intro pool s hse huniq hinv step hstep
    cases hpb : pickBest dist s.loc s.time s.visited pool with
    | none =>
      rw [schedLoop_eq_none _ hpb] at hstep
      exact .inl hstep
    | some r =>
      rcases r with ⟨i, c, d⟩
      rw [schedLoop_eq_some _ hpb] at hstep
      obtain ⟨⟨hreach, hnv⟩, hmem, ⟨pl, hco, hdeq⟩, hmin⟩ := pickBest_spec.2 i c d hpb
      obtain ⟨pl2, hco2, harr⟩ := hreach
      rw [hco] at hco2
      injection hco2 with hco2
      subst hco2
      have htrav : 0 ≤ smartCalculateTravelTime (dist s.loc pl) :=
        smartCalculateTravelTime_nonneg (hd _ _)
      have htle : s.time ≤ c.slot.startTime.toMin := by omega
      obtain ⟨hvis2, htime2, hloc2, htrace2⟩ :=
        @smartAdvance_fields agentId date s pool i c d _ hco
      have hsub : pool.eraseIdx i ⊆ pool := (List.eraseIdx_sublist pool i).subset
      have hinv2 : ∀ c' ∈ pool.eraseIdx i,
          c'.slot.id ∈ (smartAdvance agentId date s pool i c d).visited →
          c'.slot.endTime.toMin ≤ (smartAdvance agentId date s pool i c d).time := by
        intro c' hc' hvismem
        rw [hvis2] at hvismem
        rw [htime2]
        rcases List.mem_append.mp hvismem with hold | hnew
        · have h1 := hinv c' (hsub hc') hold
          have h3 := hse c hmem
          omega
        · rcases List.mem_singleton.mp hnew with heq
          have := huniq c' (hsub hc') c hmem heq
          rw [this]
      rcases ih (pool.eraseIdx i) _
        (fun c' hc' => hse c' (hsub hc'))
        (fun c' hc' c2 hc2 => huniq c' (hsub hc') c2 (hsub hc2))
        hinv2 step hstep with h2 | h2
      · rw [htrace2] at h2
        rcases List.mem_append.mp h2 with h3 | h3
        · exact .inl h3
        · rcases List.mem_singleton.mp h3 with rfl
          refine .inr ⟨⟨pl, hco, harr⟩, ?_⟩
          intro c' hc' pl0 pl' hco0 hco' hreach'
          rw [hco] at hco0
          injection hco0 with hco0
          subst hco0
          obtain ⟨pl'2, hcop, harr'⟩ := hreach'
          rw [hco'] at hcop
          injection hcop with hcop
          subst hcop
          dsimp only [] at harr' ⊢
          have hnv' : c'.slot.id ∉ s.visited := by
            intro hin
            have hend := hinv c' hc' hin
            have hse' := hse c' hc'
            have htrav' : 0 ≤ smartCalculateTravelTime (dist s.loc pl') :=
              smartCalculateTravelTime_nonneg (hd _ _)
            omega
          have := hmin c' hc' pl' hco' hnv' harr'
          rw [hdeq] at this
          exact this
      · exact .inr h2

/-! ## Orchestrator selection lemmas -/

theorem candidateOfSlot_sound {pcm : List (String × List String)} {vps : List Property}
    {booked : List String} {slot : ShowingSlot} {c : SlotCandidate}
    (h : candidateOfSlot pcm vps booked slot = some c) :
    c.slot = slot ∧ slot.isBooked ≠ "true" ∧ slot.id ∉ booked ∧
    c.clientIds.length ≤ slot.maxCapacity ∧ 0 < c.clientIds.length := by
  unfold candidateOfSlot at h
  by_cases h1 : slot.isBooked = "true" ∨ slot.id ∈ booked
  · rw [if_pos h1] at h; cases h
  · rw [if_neg h1] at h
    push_neg at h1
    cases hfind : vps.find? (fun p => p.id = slot.propertyId) with
    | none => rw [hfind] at h; cases h
    | some property =>
      cases hmap : (pcm.find? (fun e => e.1 = slot.propertyId)).map (fun e => e.2) with
      | none => rw [hfind, hmap] at h; cases h
      | some clientsInterested =>
        rw [hfind, hmap] at h
        dsimp only [] at h
        by_cases h2 : clientsInterested.length > 0
        · rw [if_pos h2] at h
          by_cases h3 : clientsInterested.length ≤ slot.maxCapacity
          · rw [if_pos h3] at h
            cases h
            exact ⟨rfl, h1.1, h1.2, h3, h2⟩
          · rw [if_neg h3] at h; cases h
        · rw [if_neg h2] at h; cases h

theorem mem_orchSlotCandidates {st : Storage} {agentId : String} {date : Nat}
    {clientIds : List String} {c : SlotCandidate}
    (h : c ∈ orchSlotCandidates st agentId date clientIds) :
    ∃ slot, slot ∈ st.showingSlots ∧ slot.date = date ∧
      candidateOfSlot (propertyClientMap st (clientIds.filterMap (getClient st)))
        ((propertyClientMap st (clientIds.filterMap (getClient st))).map (fun e => e.1)
          |>.filterMap (getProperty st))
        (bookedSlotIds st agentId date) slot = some c := by
  unfold orchSlotCandidates at h
  rcases List.mem_filterMap.mp h with ⟨slot, hmem, hsome⟩
  rcases List.mem_filter.mp hmem with ⟨hmem2, hdate⟩
  exact ⟨slot, hmem2, by simpa using hdate, hsome⟩

theorem orchWalk_selected_mem (dist : Loc → Loc → ℚ) (sM eM : ℤ) :
    ∀ (cs : List SlotCandidate) (cur : OrchCursor) (b : BookingCandidate),
    b ∈ (orchWalk dist sM eM cur cs).selected →
    b ∈ cur.selected ∨ ∃ c ∈ cs, b.slot = c.slot ∧ b.property = c.property ∧
      b.clientIds = c.clientIds := by
  intro cs
  induction cs with
  | nil => intro cur b h; exact .inl (by simpa [orchWalk] using h)
  | cons c cs ih =>
    intro cur b h
    rw [orchWalk] at h
    by_cases hw : c.startMinutes < sM ∨ eM < c.endMinutes
    · rw [if_pos hw] at h
      rcases ih _ _ h with h2 | ⟨c2, hc2, he⟩
      · exact .inl h2
      · exact .inr ⟨c2, List.mem_cons_of_mem _ hc2, he⟩
    · rw [if_neg hw] at h
      by_cases hb : c.property.id ∈ cur.bookedProperties
      · rw [if_pos hb] at h
        rcases ih _ _ h with h2 | ⟨c2, hc2, he⟩
        · exact .inl h2
        · exact .inr ⟨c2, List.mem_cons_of_mem _ hc2, he⟩
      · rw [if_neg hb] at h
        cases hco : c.property.coords with
        | none =>
          rw [hco] at h
          rcases ih _ _ h with h2 | ⟨c2, hc2, he⟩
          · exact .inl h2
          · exact .inr ⟨c2, List.mem_cons_of_mem _ hc2, he⟩
        | some pl =>
          rw [hco] at h
          simp only [] at h
          by_cases ht : cur.currentTime +
              orchCalculateTravelTime (dist cur.currentLocation pl) > c.startMinutes
          · rw [if_pos ht] at h
            rcases ih _ _ h with h2 | ⟨c2, hc2, he⟩
            · exact .inl h2
            · exact .inr ⟨c2, List.mem_cons_of_mem _ hc2, he⟩
          · rw [if_neg ht] at h
            rcases ih _ _ h with h2 | ⟨c2, hc2, he⟩
            · rcases List.mem_append.mp h2 with h3 | h3
              · exact .inl h3
              · rcases List.mem_singleton.mp h3 with rfl
                exact .inr ⟨c, List.mem_cons_self _ _, rfl, rfl, rfl⟩
            · exact .inr ⟨c2, List.mem_cons_of_mem _ hc2, he⟩

theorem persistBooking_fold_mem (agentId : String) (now : Nat) :
    ∀ (bs : List BookingCandidate) (acc : List BookingRequest × Storage)
      (r : BookingRequest), r ∈ (bs.foldl (persistBooking agentId now) acc).1 →
    r ∈ acc.1 ∨ ∃ b ∈ bs, r.propertyId = b.property.id ∧ r.slotId = b.slot.id ∧
      r.clientIds = b.clientIds ∧ r.status = "pending" ∧
      r.travelTimeFromPrevious = b.travelTimeFromPrevious ∧
      r.distanceFromPrevious = b.distanceFromPrevious := by
  intro bs
  induction bs with
  | nil => intro acc r h; exact .inl (by simpa using h)
  | cons b bs ih =>
    intro acc r h
    rw [List.foldl_cons] at h
    rcases ih _ r h with h2 | ⟨b2, hb2, he⟩
    · unfold persistBooking createBookingRequest at h2
      rcases List.mem_append.mp h2 with h3 | h3
      · exact .inl h3
      · rcases List.mem_singleton.mp h3 with rfl
        exact .inr ⟨b, List.mem_cons_self _ _, rfl, rfl, rfl, rfl, rfl, rfl⟩
    · exact .inr ⟨b2, List.mem_cons_of_mem _ hb2, he⟩

/-- Every request created by a successful `generateBookingRequests` run comes
from a slot candidate of the run. -/
theorem generateBookingRequests_mem {st : Storage} {agentId : String} {date : Nat}
    {clientIds : List String} {startLocation : Loc} {startTime endTime : HM}
    {dist : Loc → Loc → ℚ} {now : Nat} {res : List BookingRequest × Storage}
    (h : generateBookingRequests st agentId date clientIds startLocation startTime endTime
      dist now = .ok res) :
    ∀ r ∈ res.1, ∃ c ∈ orchSlotCandidates st agentId date clientIds,
      r.propertyId = c.property.id ∧ r.slotId = c.slot.id ∧
      r.clientIds = c.clientIds ∧ r.status = "pending" := by
  intro r hr
  unfold generateBookingRequests at h
  simp only [] at h
  split at h
  · cases h
  · injection h with h
    rw [← h] at hr
    rcases persistBooking_fold_mem agentId now _ _ r hr with h2 | ⟨b, hb, he⟩
    · cases h2
    · rcases orchWalk_selected_mem dist startTime.toMin endTime.toMin _ _ b hb with
        h3 | ⟨c, hc, hbc⟩
      · cases h3
      · refine ⟨c, ?_, ?_, ?_, ?_, he.2.2.2.1⟩
        · exact (List.mem_insertionSort _).mp hc
        · rw [he.1, hbc.2.1]
        · rw [he.2.1, hbc.1]
        · rw [he.2.2.1, hbc.2.2]

/-- The walk only ever appends to the accumulated booking list. -/
theorem orchWalk_selected_extends (dist : Loc → Loc → ℚ) (sM eM : ℤ) :
    ∀ (cs : List SlotCandidate) (cur : OrchCursor),
    ∃ tail, (orchWalk dist sM eM cur cs).selected = cur.selected ++ tail := by
  intro cs
  induction cs with
  | nil => intro cur; exact ⟨[], by simp [orchWalk]⟩
  | cons c cs ih =>
    intro cur
    rw [orchWalk]
    by_cases hw : c.startMinutes < sM ∨ eM < c.endMinutes
    · rw [if_pos hw]; exact ih cur
    · rw [if_neg hw]
      by_cases hb : c.property.id ∈ cur.bookedProperties
      · rw [if_pos hb]; exact ih cur
      · rw [if_neg hb]
        cases hco : c.property.coords with
        | none => exact ih cur
        | some pl =>
          simp only []
          by_cases ht : cur.currentTime +
              orchCalculateTravelTime (dist cur.currentLocation pl) > c.startMinutes
          · rw [if_pos ht]; exact ih cur
          · rw [if_neg ht]
            obtain ⟨tail, htail⟩ := ih _
            exact ⟨_, by rw [htail]; dsimp only; rw [List.append_assoc]⟩


end AgentCal

namespace AgentCal

/-- Claim C8: every BookingRequest created by `generateBookingRequests` has
`clientIds.length` at most the target slot's `maxCapacity` at generation time,
and a slot whose interested-client count exceeds its capacity never becomes a
candidate. -/
theorem c8_capacity_invariant {st : Storage} {agentId : String} {date : Nat}
    {clientIds : List String} {startLocation : Loc} {startTime endTime : HM}
    {dist : Loc → Loc → ℚ} {now : Nat} {res : List BookingRequest × Storage}
    (h : generateBookingRequests st agentId date clientIds startLocation startTime endTime
      dist now = .ok res) :
    (∀ r ∈ res.1, ∃ slot, slot ∈ st.showingSlots ∧ slot.id = r.slotId ∧
      r.clientIds.length ≤ slot.maxCapacity) ∧
    (∀ c ∈ orchSlotCandidates st agentId date clientIds,
      c.clientIds.length ≤ c.slot.maxCapacity) := by
  constructor
  · intro r hr
    rcases generateBookingRequests_mem h r hr with ⟨c, hc, hprop, hslot, hcl, _⟩
    rcases mem_orchSlotCandidates hc with ⟨slot, hmem, _, hcand⟩
    rcases candidateOfSlot_sound hcand with ⟨hcs, _, _, hcap, _⟩
    refine ⟨slot, hmem, ?_, ?_⟩
    · rw [hslot, hcs]
    · rw [hcl]; exact hcap
  · intro c hc
    rcases mem_orchSlotCandidates hc with ⟨slot, _, _, hcand⟩
    rcases candidateOfSlot_sound hcand with ⟨hcs, _, _, hcap, _⟩
    rw [hcs]; exact hcap

/-- Witness for C8: a concrete one-client, one-slot run succeeds and satisfies
the capacity bound. -/
theorem c8_capacity_invariant_witness :
    (generateBookingRequests stW "a" 0 ["c1"] locW { h := 9, m := 0 } { h := 17, m := 0 }
      distW 0 = .ok c8Res) ∧
    (∀ r ∈ c8Res.1, ∃ slot, slot ∈ stW.showingSlots ∧ slot.id = r.slotId ∧
      r.clientIds.length ≤ slot.maxCapacity) :=
  have h : generateBookingRequests stW "a" 0 ["c1"] locW { h := 9, m := 0 }
      { h := 17, m := 0 } distW 0 = .ok c8Res := rfl
  ⟨h, (c8_capacity_invariant h).1⟩

/-- Claim C3: `generateBookingRequests` walks the time-sorted candidates in a
single forward pass; a candidate with coordinates is accepted exactly when it
lies inside the working-hours window, its property was not already booked this
run, and `currentTime + travelTime ≤ startMinutes`; a candidate without
coordinates is always skipped; acceptance advances the cursor to the
candidate's end time and location; the first accepted booking carries no
travel-from-previous metrics; and the walked list is sorted ascending by start
time. -/
theorem c3_forward_pass_walk :
    (∀ (dist : Loc → Loc → ℚ) (sM eM : ℤ) (cur : OrchCursor) (c : SlotCandidate)
        (cs : List SlotCandidate) (pl : Loc), c.property.coords = some pl →
      orchWalk dist sM eM cur (c :: cs) =
        if sM ≤ c.startMinutes ∧ c.endMinutes ≤ eM ∧ c.property.id ∉ cur.bookedProperties ∧
            cur.currentTime + orchCalculateTravelTime (dist cur.currentLocation pl)
              ≤ c.startMinutes then
          orchWalk dist sM eM
            { selected := cur.selected ++
                [{ slot := c.slot, property := c.property, clientIds := c.clientIds,
                   travelTimeFromPrevious := if cur.selected.length > 0 then
                     some (orchCalculateTravelTime (dist cur.currentLocation pl)) else none,
                   distanceFromPrevious := if cur.selected.length > 0 then
                     some (dist cur.currentLocation pl) else none }],
              bookedProperties := cur.bookedProperties ++ [c.property.id],
              currentTime := c.endMinutes, currentLocation := pl } cs
        else orchWalk dist sM eM cur cs) ∧
    (∀ (dist : Loc → Loc → ℚ) (sM eM : ℤ) (cur : OrchCursor) (c : SlotCandidate)
        (cs : List SlotCandidate), c.property.coords = none →
      orchWalk dist sM eM cur (c :: cs) = orchWalk dist sM eM cur cs) ∧
    (∀ l : List SlotCandidate,
      (orchSortCandidates l).Pairwise (fun a b => a.startMinutes ≤ b.startMinutes)) ∧
    (∀ (dist : Loc → Loc → ℚ) (sM eM : ℤ) (cur : OrchCursor) (cs : List SlotCandidate)
        (b : BookingCandidate), cur.selected = [] →
      ((orchWalk dist sM eM cur cs).selected).head? = some b →
      b.travelTimeFromPrevious = none ∧ b.distanceFromPrevious = none) := by
  refine ⟨?_, ?_, ?_, ?_⟩
  · intro dist sM eM cur c cs pl hpl
    rw [orchWalk, hpl]
    simp only []
    by_cases h1 : c.startMinutes < sM ∨ eM < c.endMinutes
    · rw [if_pos h1, if_neg (by rintro ⟨ha, hb2, -, -⟩; omega)]
    · rw [if_neg h1]
      push_neg at h1
      by_cases h2 : c.property.id ∈ cur.bookedProperties
      · rw [if_pos h2, if_neg (fun hc => hc.2.2.1 h2)]
      · rw [if_neg h2]
        by_cases h3 : cur.currentTime +
            orchCalculateTravelTime (dist cur.currentLocation pl) > c.startMinutes
        · rw [if_pos h3, if_neg (fun hc => absurd hc.2.2.2 (not_le.mpr h3))]
        · have hcond : sM ≤ c.startMinutes ∧ c.endMinutes ≤ eM ∧
              c.property.id ∉ cur.bookedProperties ∧
              cur.currentTime + orchCalculateTravelTime (dist cur.currentLocation pl)
                ≤ c.startMinutes := ⟨h1.1, h1.2, h2, le_of_not_lt h3⟩
          rw [if_neg h3, if_pos hcond]
  · intro dist sM eM cur c cs hnone
    rw [orchWalk, hnone]
    split_ifs <;> rfl
  · intro l
    have h := pairwise_insertionSort_of (fun a b => a.startMinutes - b.startMinutes ≤ 0) l
      (by intro x _ y _ hxy; omega) (by intro x _ y _ z _ hxy hyz; omega)
    exact h.imp (by intro a b hab; omega)
  · intro dist sM eM cur cs
    induction cs generalizing cur with
    | nil =>
      intro b h0 hh
      rw [orchWalk] at hh
      rw [h0] at hh
      cases hh
    | cons c cs ih =>
      intro b h0 hh
      rw [orchWalk] at hh
      by_cases hw : c.startMinutes < sM ∨ eM < c.endMinutes
      · rw [if_pos hw] at hh; exact ih cur b h0 hh
      · rw [if_neg hw] at hh
        by_cases hb : c.property.id ∈ cur.bookedProperties
        · rw [if_pos hb] at hh; exact ih cur b h0 hh
        · rw [if_neg hb] at hh
          cases hco : c.property.coords with
          | none => rw [hco] at hh; exact ih cur b h0 hh
          | some pl =>
            rw [hco] at hh
            simp only [] at hh
            by_cases ht : cur.currentTime +
                orchCalculateTravelTime (dist cur.currentLocation pl) > c.startMinutes
            · rw [if_pos ht] at hh; exact ih cur b h0 hh
            · rw [if_neg ht] at hh
              obtain ⟨tail, htail⟩ := orchWalk_selected_extends dist sM eM cs _
              rw [htail] at hh
              dsimp only [] at hh
              rw [h0] at hh
              simp only [List.nil_append, List.singleton_append, List.length_nil, gt_iff_lt,
                lt_self_iff_false, if_false, List.head?_cons, Option.some.injEq] at hh
              subst hh
              exact ⟨rfl, rfl⟩


/-- Witness for C3: the step law applied to a concrete candidate with
coordinates. -/
theorem c3_forward_pass_walk_witness :
    candW.property.coords = some locW ∧
    orchWalk distW 540 1020 curW [candW] =
      (if 540 ≤ candW.startMinutes ∧ candW.endMinutes ≤ 1020 ∧
          candW.property.id ∉ curW.bookedProperties ∧
          curW.currentTime + orchCalculateTravelTime (distW curW.currentLocation locW)
            ≤ candW.startMinutes then
        orchWalk distW 540 1020
          { selected := curW.selected ++
              [{ slot := candW.slot, property := candW.property, clientIds := candW.clientIds,
                 travelTimeFromPrevious := if curW.selected.length > 0 then
                   some (orchCalculateTravelTime (distW curW.currentLocation locW)) else none,
                 distanceFromPrevious := if curW.selected.length > 0 then
                   some (distW curW.currentLocation locW) else none }],
            bookedProperties := curW.bookedProperties ++ [candW.property.id],
            currentTime := candW.endMinutes, currentLocation := locW } []
      else orchWalk distW 540 1020 curW []) :=
  ⟨rfl, c3_forward_pass_walk.1 distW 540 1020 curW candW [] locW rfl⟩

/-! ## Candidate provenance lemmas -/

theorem dedupClientProperty_fold_subset :
    ∀ (l : List ScheduleCandidate) (acc : List ScheduleCandidate × List String),
    (l.foldl (fun (acc : List ScheduleCandidate × List String) cand =>
      if (cand.client.id ++ "-" ++ cand.property.id) ∈ acc.2 then acc
      else (acc.1 ++ [cand], acc.2 ++ [cand.client.id ++ "-" ++ cand.property.id])) acc).1 ⊆
      acc.1 ++ l := by
  intro l
  induction l with
  | nil => intro acc x hx; simpa using hx
  | cons c l ih =>
    intro acc x hx
    rw [List.foldl_cons] at hx
    by_cases hk : (c.client.id ++ "-" ++ c.property.id) ∈ acc.2
    · rw [if_pos hk] at hx
      have := ih acc hx
      rcases List.mem_append.mp this with h | h
      · exact List.mem_append.mpr (.inl h)
      · exact List.mem_append.mpr (.inr (List.mem_cons_of_mem _ h))
    · rw [if_neg hk] at hx
      have := ih _ hx
      rcases List.mem_append.mp this with h | h
      · rcases List.mem_append.mp h with h2 | h2
        · exact List.mem_append.mpr (.inl h2)
        · rcases List.mem_singleton.mp h2 with rfl
          exact List.mem_append.mpr (.inr (List.mem_cons_self _ _))
      · exact List.mem_append.mpr (.inr (List.mem_cons_of_mem _ h))

theorem dedupClientProperty_subset (l : List ScheduleCandidate) :
    dedupClientProperty l ⊆ l := by
  intro x hx
  have := dedupClientProperty_fold_subset l ([], []) hx
  simpa using this

/-- Every candidate of `generateSmartSchedule` carries a slot of the store
that is unbooked (`isBooked = "false"`) and lies on the requested day. -/
theorem mem_smartCandidates {st : Storage} {agentId dayOfWeek : String} {date : Nat}
    {c : ScheduleCandidate} (h : c ∈ smartCandidates st agentId dayOfWeek date) :
    c.slot ∈ st.showingSlots ∧ c.slot.isBooked = "false" ∧ c.slot.date = date := by
  unfold smartCandidates at h
  rcases List.mem_flatMap.mp h with ⟨client, -, h⟩
  rcases List.mem_flatMap.mp h with ⟨preference, -, h⟩
  cases hp : getProperty st preference.propertyId with
  | none => rw [hp] at h; cases h
  | some property =>
    rw [hp] at h
    rcases List.mem_map.mp h with ⟨slot, hslot, rfl⟩
    rcases List.mem_filter.mp hslot with ⟨hslot2, -⟩
    unfold getAvailableSlots at hslot2
    rcases List.mem_filter.mp hslot2 with ⟨hmem, hcond⟩
    have hcond2 := of_decide_eq_true hcond
    exact ⟨hmem, hcond2.2.1, hcond2.2.2⟩

/-! ## Confirm / reject lemmas -/

theorem getClient_id {st : Storage} {cid : String} {c : Client}
    (h : getClient st cid = some c) : c.id = cid := by
  have := List.find?_some h
  simpa using this

theorem find?_update_list (l : List BookingRequest) (rid : String)
    (patch : BookingRequest → BookingRequest) (hid : ∀ r, (patch r).id = r.id) :
    (l.map (fun r => if r.id = rid then patch r else r)).find?
        (fun r => r.id = rid) =
      (l.find? (fun r => r.id = rid)).map patch := by
  induction l with
  | nil => rfl
  | cons r l ih =>
    by_cases hr : r.id = rid
    · simp [List.find?_cons, hr, hid r]
    · simpa [List.find?_cons, hr] using ih

/-- `updateBookingRequest` patches exactly the targeted request, leaving the
other tables untouched. -/
theorem getBookingRequest_update (st : Storage) (rid : String)
    (patch : BookingRequest → BookingRequest) (hid : ∀ r, (patch r).id = r.id) :
    getBookingRequest (updateBookingRequest st rid patch) rid =
      (getBookingRequest st rid).map patch := by
  unfold getBookingRequest updateBookingRequest
  exact find?_update_list st.bookingRequests rid patch hid

theorem confirmApptStep_fold (request : BookingRequest) (slot : ShowingSlot)
    (requestId : String) :
    ∀ (ocs : List (Option Client)) (acc : Storage), (∀ oc ∈ ocs, oc.isSome) →
    ∃ tail : List Appointment,
      (ocs.foldl (confirmApptStep request slot requestId) acc).appointments =
        acc.appointments ++ tail ∧
      (ocs.foldl (confirmApptStep request slot requestId) acc).bookingRequests =
        acc.bookingRequests ∧
      tail.map (fun a => a.clientId) = ocs.map (fun oc => oc.map (fun c => c.id)) ∧
      tail.length = ocs.length ∧
      ∀ a ∈ tail, a.bookingRequestId = some requestId ∧ a.scheduledDay = slot.date ∧
        a.scheduledTime = slot.startTime ∧
        a.duration = slot.endTime.toMin - slot.startTime.toMin ∧
        a.propertyId = request.propertyId ∧ a.agentId = request.agentId ∧
        a.status = "scheduled" := by
  intro ocs
  induction ocs with
  | nil => intro acc _; exact ⟨[], by simp⟩
  | cons oc ocs ih =>
    intro acc hall
    cases oc with
    | none => exact absurd (hall none (List.mem_cons_self _ _)) (by simp)
    | some client =>
      rw [List.foldl_cons]
      obtain ⟨tail, h1, h2, h3, h4, h5⟩ :=
        ih (confirmApptStep request slot requestId acc (some client))
          (fun oc hoc => hall oc (List.mem_cons_of_mem _ hoc))
      refine ⟨mkConfirmAppt request slot requestId client (freshId acc) :: tail,
        ?_, ?_, ?_, ?_, ?_⟩
      · rw [h1]
        simp [confirmApptStep, createAppointment]
      · rw [h2]
        simp [confirmApptStep, createAppointment]
      · simp only [List.map_cons, h3, Option.map_some]
        rfl
      · simp [h4]
      · intro a ha
        rcases List.mem_cons.mp ha with rfl | ha
        · exact ⟨rfl, rfl, rfl, rfl, rfl, rfl, rfl⟩
        · exact h5 a ha


/-- Claim C6: `confirmBookingRequest` fails with an invalid-state error whenever
the request's status is not "pending" (the request is left untouched, no state
change happens on the error path); otherwise, with the slot present and every
client id resolvable, it creates one Appointment per client id, in order, at
the slot's time window referencing the request id, and sets the request to
"confirmed" with `respondedAt = now`. -/
theorem c6_confirm_contract {st : Storage} {rid : String} {now : Nat} {req : BookingRequest}
    (hreq : getBookingRequest st rid = some req) :
    (req.status ≠ "pending" →
      confirmBookingRequest st rid now = .error "Only pending requests can be confirmed") ∧
    (∀ slot, req.status = "pending" → getShowingSlot st req.slotId = some slot →
      (∀ cid ∈ req.clientIds, (getClient st cid).isSome) →
      ∃ st2, confirmBookingRequest st rid now = .ok st2 ∧
        st2.appointments.length = st.appointments.length + req.clientIds.length ∧
        (st2.appointments.drop st.appointments.length).map (fun a => a.clientId) =
          req.clientIds.map some ∧
        (∀ a ∈ st2.appointments.drop st.appointments.length,
          a.bookingRequestId = some rid ∧ a.scheduledDay = slot.date ∧
          a.scheduledTime = slot.startTime ∧
          a.duration = slot.endTime.toMin - slot.startTime.toMin ∧
          a.propertyId = req.propertyId) ∧
        getBookingRequest st2 rid =
          some { req with status := "confirmed", respondedAt := some now }) := by
  constructor
  · intro hstat
    unfold confirmBookingRequest
    rw [hreq]
    simp only [if_pos hstat]
  · intro slot hstat hslot hres
    unfold confirmBookingRequest
    rw [hreq]
    have hne : ¬ (req.status ≠ "pending") := fun hc => hc hstat
    simp only [if_neg hne]
    rw [hslot]
    simp only []
    obtain ⟨tail, h1, h2, h3, h4, h5⟩ :=
      confirmApptStep_fold req slot rid (req.clientIds.map (getClient st)) st
        (by
          intro oc hoc
          rcases List.mem_map.mp hoc with ⟨cid, hcid, rfl⟩
          exact hres cid hcid)
    refine ⟨_, rfl, ?_, ?_, ?_, ?_⟩
    · show (List.foldl _ st _).appointments.length = _
      rw [h1]
      simp [h4]
    · show ((List.foldl _ st _).appointments.drop st.appointments.length).map _ = _
      rw [h1, List.drop_left, h3, List.map_map]
      apply List.map_congr_left
      intro cid hcid
      have hsome := hres cid hcid
      cases hc : getClient st cid with
      | none => rw [hc] at hsome; cases hsome
      | some c =>
        have : c.id = cid := getClient_id hc
        simp [hc, this]
    · show ∀ a ∈ (List.foldl _ st _).appointments.drop st.appointments.length, _
      rw [h1, List.drop_left]
      intro a ha
      rcases h5 a ha with ⟨hb, hd, hst, hdur, hp, _, _⟩
      exact ⟨hb, hd, hst, hdur, hp⟩
    · rw [getBookingRequest_update _ rid
        (fun r => { r with status := "confirmed", respondedAt := some now }) (fun r => rfl)]
      show ((List.foldl _ st _).bookingRequests.find? _).map _ = _
      rw [h2]
      show (getBookingRequest st rid).map _ = _
      rw [hreq]
      rfl

/-- Witness for C6: confirming a concrete pending one-client request. -/
theorem c6_confirm_contract_witness :
    getBookingRequest stW6 "r1" = some reqW ∧
    reqW.status = "pending" ∧
    getShowingSlot stW6 reqW.slotId = some slW ∧
    (∃ st2, confirmBookingRequest stW6 "r1" 5 = .ok st2 ∧
      st2.appointments.length = stW6.appointments.length + reqW.clientIds.length ∧
      (st2.appointments.drop stW6.appointments.length).map (fun a => a.clientId) =
        reqW.clientIds.map some ∧
      (∀ a ∈ st2.appointments.drop stW6.appointments.length,
        a.bookingRequestId = some "r1" ∧ a.scheduledDay = slW.date ∧
        a.scheduledTime = slW.startTime ∧
        a.duration = slW.endTime.toMin - slW.startTime.toMin ∧
        a.propertyId = reqW.propertyId) ∧
      getBookingRequest st2 "r1" =
        some { reqW with status := "confirmed", respondedAt := some 5 }) :=
  ⟨rfl, rfl, rfl,
    (@c6_confirm_contract stW6 "r1" 5 reqW rfl).2 slW rfl rfl
      (by decide)⟩

/-- Claim C1 as amended: `generateBookingRequests` never creates a request
against a slot with `isBooked = "true"` or one referenced by an existing
pending/confirmed BookingRequest of the same agent on that date;
`generateSmartSchedule` never selects a slot with `isBooked` other than
"false", but it does not consult BookingRequests at all, so a slot referenced
by a pending or confirmed request can still be selected there (see the
counterexample). -/
theorem c1_slot_exclusion_amended :
    (∀ (st : Storage) (agentId dayOfWeek : String) (date : Nat) (startLoc : Loc)
        (startTime : HM) (dist : Loc → Loc → ℚ),
      ∀ step ∈ (generateSmartSchedule st agentId dayOfWeek date startLoc startTime dist).2.2,
        step.chosen.slot ∈ st.showingSlots ∧ step.chosen.slot.isBooked = "false") ∧
    (∀ (st : Storage) (agentId : String) (date : Nat) (clientIds : List String)
        (startLocation : Loc) (startTime endTime : HM) (dist : Loc → Loc → ℚ) (now : Nat)
        (res : List BookingRequest × Storage),
      generateBookingRequests st agentId date clientIds startLocation startTime endTime
        dist now = .ok res →
      ∀ r ∈ res.1, ∃ slot, slot ∈ st.showingSlots ∧ slot.id = r.slotId ∧
        slot.isBooked ≠ "true" ∧ r.slotId ∉ bookedSlotIds st agentId date) := by
  constructor
  · intro st agentId dayOfWeek date startLoc startTime dist step hstep
    unfold generateSmartSchedule at hstep
    simp only [] at hstep
    split at hstep
    · cases hstep
    · split at hstep
      · cases hstep
      · rcases schedLoop_trace_pool dist agentId date
          (dedupClientProperty (smartSort (smartCandidates st agentId dayOfWeek date))).length
          _ _ step hstep with h | ⟨hm, hsub⟩
        · cases h
        · have h1 : step.chosen ∈
              dedupClientProperty (smartSort (smartCandidates st agentId dayOfWeek date)) :=
            hsub hm
          have h2 : step.chosen ∈ smartSort (smartCandidates st agentId dayOfWeek date) :=
            dedupClientProperty_subset _ h1
          have h3 : step.chosen ∈ smartCandidates st agentId dayOfWeek date :=
            (List.mem_insertionSort _).mp h2
          obtain ⟨hmem, hunbooked, -⟩ := mem_smartCandidates h3
          exact ⟨hmem, hunbooked⟩
  · intro st agentId date clientIds startLocation startTime endTime dist now res h r hr
    rcases generateBookingRequests_mem h r hr with ⟨c, hc, -, hslot, -, -⟩
    rcases mem_orchSlotCandidates hc with ⟨slot, hmem, -, hcand⟩
    rcases candidateOfSlot_sound hcand with ⟨hcs, hnb, hnin, -, -⟩
    refine ⟨slot, hmem, ?_, hnb, ?_⟩
    · rw [hslot, hcs]
    · rw [hslot, hcs]
      exact hnin

/-- Claim C1 (counterexample to the claim as stated): in a store whose only
slot `s1` is referenced by a pending BookingRequest of the same agent and
date, `generateSmartSchedule` still selects `s1` and creates an appointment
against it — the smart scheduler never consults BookingRequests. -/
theorem c1_pending_slot_counterexample :
    reqW.status = "pending" ∧ reqW.slotId = slW.id ∧ reqW ∈ stW6.bookingRequests ∧
    reqW.agentId = "a" ∧ slW ∈ stW6.showingSlots ∧ slW.isBooked = "false" ∧
    slW.id ∈ bookedSlotIds stW6 "a" 0 ∧
    ((generateSmartSchedule stW6 "a" "Saturday" 0 locW { h := 8, m := 0 } distW).2.2.map
      (fun step => step.chosen.slot.id)) = [slW.id] ∧
    (generateSmartSchedule stW6 "a" "Saturday" 0 locW { h := 8, m := 0 }
      distW).1.appointments.length = 1 := by
  refine ⟨rfl, rfl, by decide, rfl, by decide, rfl, by decide, ?_, ?_⟩
  all_goals {
    have hclients : ((getClientsByAgent stW6 "a").filter (fun c =>
        c.preferredDays.elim false (fun l => "Saturday" ∈ l))).length = 1 := by decide
    have hcands : smartCandidates stW6 "a" "Saturday" 0 = [candSmartW] := by decide
    have hpool : dedupClientProperty (smartSort [candSmartW]) = [candSmartW] := by decide
    have hpb : pickBest distW sW6.loc sW6.time sW6.visited [candSmartW] =
        some (0, candSmartW, 0) := by
      show pickBest distW locW 480 [] [candSmartW] = some (0, candSmartW, 0)
      unfold pickBest
      simp [pickBestAux, candSmartW, prW, slW, clW, prefW, distW,
        smartCalculateTravelTime, HM.toMin]
    have hloop : schedLoop distW "a" 0 1 sW6 [candSmartW] =
        smartAdvance "a" 0 sW6 [candSmartW] 0 candSmartW 0 := by
      rw [schedLoop_eq_some 0 hpb]
      rfl
    have hgen : generateSmartSchedule stW6 "a" "Saturday" 0 locW { h := 8, m := 0 } distW =
        (let sF := schedLoop distW "a" 0 1 sW6 [candSmartW]
         ({ appointments := sF.appts, totalDistance := sF.totalDistance,
            totalTravelTime := sF.totalTravelTime,
            clientsScheduled := ((sF.appts.map (fun a => a.clientId)).dedup).length,
            propertiesVisited := ((sF.appts.map (fun a => a.propertyId)).dedup).length },
          sF.storage, sF.trace)) := by
      unfold generateSmartSchedule
      simp only []
      rw [hclients]
      simp only [Nat.one_ne_zero, if_false]
      rw [hcands]
      simp only [List.length_cons, List.length_nil, Nat.succ_ne_zero, if_false]
      rw [hpool]
      rfl
    rw [hgen]
    simp only []
    rw [hloop]
    first
    | (rw [smartAdvance_trace]; rfl)
    | (rw [smartAdvance_appts]; rfl) }

/-- Witness for C1's amended statement: the smart side applied to the run of
the counterexample store, the orchestrator side applied to a concrete
successful run. -/
theorem c1_slot_exclusion_amended_witness :
    (∀ step ∈ (generateSmartSchedule stW6 "a" "Saturday" 0 locW { h := 8, m := 0 }
        distW).2.2,
      step.chosen.slot ∈ stW6.showingSlots ∧ step.chosen.slot.isBooked = "false") ∧
    (generateBookingRequests stW "a" 0 ["c1"] locW { h := 9, m := 0 } { h := 17, m := 0 }
        distW 0 = .ok c8Res ∧
      ∀ r ∈ c8Res.1, ∃ slot, slot ∈ stW.showingSlots ∧ slot.id = r.slotId ∧
        slot.isBooked ≠ "true" ∧ r.slotId ∉ bookedSlotIds stW "a" 0) :=
  ⟨c1_slot_exclusion_amended.1 stW6 "a" "Saturday" 0 locW { h := 8, m := 0 } distW,
   rfl, c1_slot_exclusion_amended.2 stW "a" 0 ["c1"] locW { h := 9, m := 0 }
     { h := 17, m := 0 } distW 0 c8Res rfl⟩

/-- Claim C2: in every iteration of `generateSmartSchedule`'s scheduling loop
(a run starting with no visited slots and an empty trace), under a nonnegative
metric and a well-formed pool (slots of positive length, slot records
determined by their ids), the chosen candidate is reachable —
`currentTime + travelTime(distance(currentLocation, property)) ≤ slot start` —
and has minimal distance among all reachable candidates remaining in the pool;
and when no remaining candidate is reachable the loop stops, returning its
accumulated state unchanged and raising no error. -/
theorem c2_nearest_reachable_loop {dist : Loc → Loc → ℚ} (hd : ∀ a b, 0 ≤ dist a b) :
    (∀ (agentId : String) (date : Nat) (pool : List ScheduleCandidate) (s : SmartState),
      s.visited = [] → s.trace = [] →
      (∀ c ∈ pool, c.slot.startTime.toMin < c.slot.endTime.toMin) →
      (∀ c ∈ pool, ∀ c2 ∈ pool, c.slot.id = c2.slot.id → c.slot = c2.slot) →
      ∀ fuel, ∀ step ∈ (schedLoop dist agentId date fuel s pool).trace,
        smartReach dist step.loc step.time step.chosen ∧
        (∀ c' ∈ step.pool, ∀ pl pl', step.chosen.property.coords = some pl →
          c'.property.coords = some pl' → smartReach dist step.loc step.time c' →
          dist step.loc pl ≤ dist step.loc pl')) ∧
    (∀ (agentId : String) (date : Nat) (fuel : Nat) (s : SmartState)
        (pool : List ScheduleCandidate),
      (∀ c' ∈ pool, ¬ smartReach dist s.loc s.time c') →
      schedLoop dist agentId date fuel s pool = s) := by
  constructor
  · intro agentId date pool s hvis htr hse huniq fuel step hstep
    have hinv : ∀ c ∈ pool, c.slot.id ∈ s.visited → c.slot.endTime.toMin ≤ s.time := by
      intro c _ hmem
      rw [hvis] at hmem
      cases hmem
    rcases schedLoop_trace_spec dist agentId date hd fuel pool s
      hse huniq hinv step hstep with h | h
    · rw [htr] at h
      cases h
    · exact h
  · intro agentId date fuel s pool hnone
    cases hpb : pickBest dist s.loc s.time s.visited pool with
    | none => exact schedLoop_eq_none fuel hpb
    | some r =>
      rcases r with ⟨i, c, d⟩
      obtain ⟨⟨hreach, -⟩, hmem, -, -⟩ := pickBest_spec.2 i c d hpb
      exact absurd hreach (hnone c hmem)

/-- Witness for C2: the concrete one-candidate loop run, and a concrete stop
on a pool whose only candidate has no coordinates. -/
theorem c2_nearest_reachable_loop_witness :
    (∀ step ∈ (schedLoop distW "a" 0 1 sW0 [candSmartW]).trace,
      smartReach distW step.loc step.time step.chosen ∧
      (∀ c' ∈ step.pool, ∀ pl pl', step.chosen.property.coords = some pl →
        c'.property.coords = some pl' → smartReach distW step.loc step.time c' →
        distW step.loc pl ≤ distW step.loc pl')) ∧
    schedLoop distW "a" 0 1 sW0 [candNCW] = sW0 :=
  ⟨(c2_nearest_reachable_loop (fun a b => le_refl 0)).1 "a" 0 [candSmartW] sW0 rfl rfl
      (by decide) (by decide) 1,
   (c2_nearest_reachable_loop (fun a b => le_refl 0)).2 "a" 0 1 sW0 [candNCW]
      (by
        intro c' hc'
        rcases List.mem_singleton.mp hc' with rfl
        rintro ⟨pl, hpl, -⟩
        cases hpl)⟩

/-- Claim C9 (counterexample to the claim as stated): a candidate with missing
priority (effective 99) and start 10:00 placed before a candidate with
explicit priority 99 and start 09:00 stays in input order after the sort —
the comparator sees unequal raw priorities, computes an effective difference
of 0, and never reaches the start-time tie-break, so candidates of equal
effective priority are NOT ordered by start time. -/
theorem c9_sort_counterexample :
    effPriority caW.preference.priority = effPriority cbW.preference.priority ∧
    cbW.slot.startTime.toMin < caW.slot.startTime.toMin ∧
    smartCmp caW cbW = 0 ∧
    smartSort [caW, cbW] = [caW, cbW] ∧
    smartSort [caW, cbW] ≠ [cbW, caW] := by
  refine ⟨rfl, by decide, by decide, by decide, by decide⟩

/-- Claim C9 as amended: the sort of `generateSmartSchedule` is a stable sort
by a comparator that compares the `|| 99`-defaulted priorities only when the
two raw priority values differ, and breaks ties by slot start time exactly
when the raw priorities are equal; pairs whose raw priorities differ but
coincide after defaulting compare as equal and keep their input order.  When
every candidate's priority is present and nonzero, the result is ordered by
priority ascending with ties broken by start time ascending, and it is always
a permutation of the input. -/
theorem c9_priority_sort_amended :
    (∀ l : List ScheduleCandidate, (smartSort l).Perm l) ∧
    (∀ a b : ScheduleCandidate, a.preference.priority = b.preference.priority →
      smartCmp a b = a.slot.startTime.toMin - b.slot.startTime.toMin) ∧
    (∀ a b : ScheduleCandidate, a.preference.priority ≠ b.preference.priority →
      smartCmp a b =
        effPriority a.preference.priority - effPriority b.preference.priority) ∧
    (∀ l : List ScheduleCandidate,
      (∀ c ∈ l, ∃ p, c.preference.priority = some p ∧ p ≠ 0) →
      (smartSort l).Pairwise (fun a b =>
        effPriority a.preference.priority < effPriority b.preference.priority ∨
        (effPriority a.preference.priority = effPriority b.preference.priority ∧
          a.slot.startTime.toMin ≤ b.slot.startTime.toMin))) := by
  have hkey : ∀ a b : ScheduleCandidate,
      (∃ p, a.preference.priority = some p ∧ p ≠ 0) →
      (∃ p, b.preference.priority = some p ∧ p ≠ 0) →
      (smartCmp a b ≤ 0 ↔
        (effPriority a.preference.priority < effPriority b.preference.priority ∨
          (effPriority a.preference.priority = effPriority b.preference.priority ∧
            a.slot.startTime.toMin ≤ b.slot.startTime.toMin))) := by
    rintro a b ⟨pa, hpa, hpa0⟩ ⟨pb, hpb, hpb0⟩
    unfold smartCmp effPriority
    rw [hpa, hpb]
    dsimp only []
    by_cases hab : pa = pb
    · subst hab
      simp only [ne_eq, not_true_eq_false, if_false, if_neg hpa0, true_and]
      omega
    · have hne : (some pa ≠ some pb) := fun hc => hab (Option.some.inj hc)
      rw [if_pos hne]
      simp only [if_neg hpa0, if_neg hpb0]
      omega
  refine ⟨fun l => List.perm_insertionSort _ l, ?_, ?_, ?_⟩
  · intro a b h
    unfold smartCmp
    rw [if_neg (fun hc => hc h)]
  · intro a b h
    unfold smartCmp
    rw [if_pos h]
  · intro l hl
    have hpw := pairwise_insertionSort_of (fun a b => smartCmp a b ≤ 0) l
      (by
        intro x hx y hy hxy
        have h1 := hl x hx
        have h2 := hl y hy
        have hxy2 : ¬ (smartCmp x y ≤ 0) := hxy
        show smartCmp y x ≤ 0
        rw [hkey y x h2 h1]
        rw [hkey x y h1 h2] at hxy2
        omega)
      (by
        intro x hx y hy z hz hxy hyz
        have h1 := hl x hx
        have h2 := hl y hy
        have h3 := hl z hz
        have hxy2 : smartCmp x y ≤ 0 := hxy
        have hyz2 : smartCmp y z ≤ 0 := hyz
        show smartCmp x z ≤ 0
        rw [hkey x y h1 h2] at hxy2
        rw [hkey y z h2 h3] at hyz2
        rw [hkey x z h1 h3]
        omega)
    refine hpw.imp_of_mem ?_
    intro a b ha hb hab
    have h1 := hl a ((List.mem_insertionSort _).mp ha)
    have h2 := hl b ((List.mem_insertionSort _).mp hb)
    exact (hkey a b h1 h2).mp hab

/-- Witness for C9's amended statement at concrete candidates with present
nonzero priorities. -/
theorem c9_priority_sort_amended_witness :
    (smartSort [cp2W, cp1W]).Perm [cp2W, cp1W] ∧
    smartCmp cp1W cp1W = cp1W.slot.startTime.toMin - cp1W.slot.startTime.toMin ∧
    smartCmp cp1W cp2W =
      effPriority cp1W.preference.priority - effPriority cp2W.preference.priority ∧
    (smartSort [cp2W, cp1W]).Pairwise (fun a b =>
      effPriority a.preference.priority < effPriority b.preference.priority ∨
      (effPriority a.preference.priority = effPriority b.preference.priority ∧
        a.slot.startTime.toMin ≤ b.slot.startTime.toMin)) :=
  ⟨c9_priority_sort_amended.1 [cp2W, cp1W],
   c9_priority_sort_amended.2.1 cp1W cp1W rfl,
   c9_priority_sort_amended.2.2.1 cp1W cp2W (by decide),
   c9_priority_sort_amended.2.2.2 [cp2W, cp1W] (by
     intro c hc
     rcases List.mem_cons.mp hc with rfl | hc
     · exact ⟨2, rfl, by decide⟩
     · rcases List.mem_singleton.mp hc with rfl
       exact ⟨1, rfl, by decide⟩)⟩

/-- Claim C7 (counterexample to the claim as stated): rejecting a pending
request whose notes are "old" with reason "no availability" replaces the notes
with "Rejected: no availability"; the old notes are not preserved, so the
reason is not appended to the notes. -/
theorem c7_reject_notes_counterexample :
    (getBookingRequest stW6 "r1").map (fun r => r.notes) = some (some "old") ∧
    (getBookingRequest c7Rejected "r1").map (fun r => r.notes) =
      some (some "Rejected: no availability") ∧
    List.isPrefixOf "old".data "Rejected: no availability".data = false :=
  ⟨rfl, rfl, by decide⟩

/-- Claim C7 as amended: `rejectBookingRequest` requires the request to be
pending — a second call on the same id fails with the invalid-state error and
changes nothing; a successful call sets status to "rejected" and
`respondedAt = now`, creates no appointments, leaves the slots untouched, and
*replaces* the notes with "Rejected: <reason>" when a nonempty reason is
supplied (keeping the previous notes when no reason is given). -/
theorem c7_reject_amended {st : Storage} {rid : String} {reason : Option String} {now : Nat}
    {req : BookingRequest} (hreq : getBookingRequest st rid = some req) :
    (req.status ≠ "pending" →
      rejectBookingRequest st rid reason now = .error "Only pending requests can be rejected") ∧
    (req.status = "pending" →
      ∃ st2, rejectBookingRequest st rid reason now = .ok st2 ∧
        st2.appointments = st.appointments ∧
        st2.showingSlots = st.showingSlots ∧
        getBookingRequest st2 rid =
          some { req with status := "rejected", respondedAt := some now,
                          notes := rejectNotes reason req.notes } ∧
        (∀ reason2 now2, rejectBookingRequest st2 rid reason2 now2 =
          .error "Only pending requests can be rejected")) := by
  constructor
  · intro hstat
    unfold rejectBookingRequest
    rw [hreq]
    simp only [if_pos hstat]
  · intro hstat
    unfold rejectBookingRequest
    rw [hreq]
    have hne : ¬ (req.status ≠ "pending") := fun hc => hc hstat
    simp only [if_neg hne]
    have hupd : getBookingRequest (updateBookingRequest st rid (fun r =>
        { r with status := "rejected", respondedAt := some now,
                 notes := rejectNotes reason req.notes })) rid =
        some { req with status := "rejected", respondedAt := some now,
                        notes := rejectNotes reason req.notes } := by
      rw [getBookingRequest_update _ rid
        (fun r => { r with status := "rejected", respondedAt := some now,
                           notes := rejectNotes reason req.notes }) (fun r => rfl), hreq]
      rfl
    refine ⟨_, rfl, rfl, rfl, hupd, ?_⟩
    intro reason2 now2
    show rejectBookingRequest _ rid reason2 now2 = _
    unfold rejectBookingRequest
    rw [hupd]
    simp

/-- Witness for C7's amended statement: a concrete successful rejection whose
second invocation fails, applied at the same state as the counterexample. -/
theorem c7_reject_amended_witness :
    getBookingRequest stW6 "r1" = some reqW ∧
    reqW.status = "pending" ∧
    (∃ st2, rejectBookingRequest stW6 "r1" (some "no availability") 5 = .ok st2 ∧
      st2.appointments = stW6.appointments ∧
      st2.showingSlots = stW6.showingSlots ∧
      getBookingRequest st2 "r1" =
        some { reqW with status := "rejected", respondedAt := some 5,
                         notes := rejectNotes (some "no availability") reqW.notes } ∧
      (∀ reason2 now2, rejectBookingRequest st2 "r1" reason2 now2 =
        .error "Only pending requests can be rejected")) :=
  ⟨rfl, rfl,
    (@c7_reject_amended stW6 "r1" (some "no availability") 5 reqW rfl).2 rfl⟩

end AgentCal

/-- Claim C5: for every distance `d`, travel time is `ceil(d / averageSpeed * 60)`
minutes, where the route optimizer (speed 25) additionally adds a 2-minute
buffer and floors the result at 5 minutes, while the scheduler (speed 35) and
the orchestrator (speed 55) return the raw ceiling with no buffer. -/
theorem c5_travel_time_formulas : ∀ d : ℚ,
    AgentCal.estimateTravelTime d = max (⌈d / 25 * 60⌉ + 2) 5 ∧
    AgentCal.smartCalculateTravelTime d = ⌈d / 35 * 60⌉ ∧
    AgentCal.orchCalculateTravelTime d = ⌈d / 55 * 60⌉ ∧
    ⌈d / 25 * 60⌉ + 2 ≤ AgentCal.estimateTravelTime d ∧
    5 ≤ AgentCal.estimateTravelTime d := by
  intro d
  refine ⟨rfl, rfl, rfl, le_max_left _ _, le_max_right _ _⟩

namespace AgentCal

/-! ## Route optimizer lemmas -/

theorem perm_get_cons_eraseIdx {α : Type} :
    ∀ (l : List α) (i : Nat) (h : i < l.length),
      l.Perm (l.get ⟨i, h⟩ :: l.eraseIdx i)
  | a :: t, 0, _ => by simp
  | a :: t, i + 1, h => by
    have h' : i < t.length := by simpa using h
    have ih := perm_get_cons_eraseIdx t i h'
    have hget : (a :: t).get ⟨i + 1, h⟩ = t.get ⟨i, h'⟩ := rfl
    have herase : (a :: t).eraseIdx (i + 1) = a :: t.eraseIdx i := rfl
    rw [hget, herase]
    exact List.Perm.trans (List.Perm.cons a ih) (List.Perm.swap _ _ _)

/-- Full characterization of the inner scan of `nearestNeighbor`: the result's
index stays within bounds, its distance never exceeds the accumulator's, it is
either the accumulator or a strictly closer element of the list (at the index
the result records), it is minimal over the list, and every list element at an
index before the chosen one is strictly farther (first-found tie-breaking). -/
theorem pickNearestAux_spec (dist : Loc → Loc → ℚ) (cur : Loc) :
    ∀ (l : List AppointmentWithProperty) (i : Nat) (best : Nat × ℚ),
      best.1 < i →
      (pickNearestAux dist cur l i best).1 < i + l.length ∧
      (pickNearestAux dist cur l i best).2 ≤ best.2 ∧
      (pickNearestAux dist cur l i best = best ∨
        ((pickNearestAux dist cur l i best).2 < best.2 ∧
          ∃ k, ∃ item, l[k]? = some item ∧
            (pickNearestAux dist cur l i best).1 = i + k ∧
            (pickNearestAux dist cur l i best).2 = dist cur (itemLoc item))) ∧
      (∀ item ∈ l, (pickNearestAux dist cur l i best).2 ≤ dist cur (itemLoc item)) ∧
      (∀ k, ∀ item, l[k]? = some item → i + k < (pickNearestAux dist cur l i best).1 →
        (pickNearestAux dist cur l i best).2 < dist cur (itemLoc item))
  | [], i, best, hbi => by
    refine ⟨by simpa using hbi, le_refl _, Or.inl rfl, by simp, ?_⟩
    intro k item hk
    simp at hk
  | item :: rest, i, best, hbi => by
    simp only [pickNearestAux]
    by_cases hlt : dist cur (itemLoc item) < best.2
    · rw [if_pos hlt]
      have ih := pickNearestAux_spec dist cur rest (i + 1)
        (i, dist cur (itemLoc item)) (Nat.lt_succ_self i)
      obtain ⟨ih1, ih2, ih3, ih4, ih5⟩ := ih
      refine ⟨by simp only [List.length_cons]; omega, le_trans ih2 (le_of_lt hlt),
        ?_, ?_, ?_⟩
      · rcases ih3 with heq | ⟨hstrict, k, it, hit, hidx, hval⟩
        · refine Or.inr ⟨by rw [heq]; exact hlt, 0, item, by simp, ?_, ?_⟩
          · rw [heq]; simp
          · rw [heq]
        · refine Or.inr ⟨lt_trans hstrict hlt, k + 1, it, by simpa using hit, ?_, hval⟩
          rw [hidx]; omega
      · intro x hx
        rcases List.mem_cons.mp hx with rfl | hx
        · exact ih2
        · exact ih4 x hx
      · intro k it hit hklt
        match k with
        | 0 =>
          rcases ih3 with heq | ⟨hstrict, _⟩
          · rw [heq] at hklt; omega
          · have : it = item := by simpa using hit.symm
            rw [this]
            simpa using hstrict
        | k + 1 =>
          exact ih5 k it (by simpa using hit) (by omega)
    · rw [if_neg hlt]
      have ih := pickNearestAux_spec dist cur rest (i + 1) best (by omega)
      obtain ⟨ih1, ih2, ih3, ih4, ih5⟩ := ih
      refine ⟨by simp only [List.length_cons]; omega, ih2, ?_, ?_, ?_⟩
      · rcases ih3 with heq | ⟨hstrict, k, it, hit, hidx, hval⟩
        · exact Or.inl heq
        · refine Or.inr ⟨hstrict, k + 1, it, by simpa using hit, ?_, hval⟩
          rw [hidx]; omega
      · intro x hx
        rcases List.mem_cons.mp hx with rfl | hx
        · exact le_trans ih2 (not_lt.mp hlt)
        · exact ih4 x hx
      · intro k it hit hklt
        match k with
        | 0 =>
          rcases ih3 with heq | ⟨hstrict, _⟩
          · rw [heq] at hklt; omega
          · have : it = item := by simpa using hit.symm
            rw [this]
            exact lt_of_lt_of_le hstrict (not_lt.mp hlt)
        | k + 1 =>
          exact ih5 k it (by simpa using hit) (by omega)

/-- The scan exactly as `nearestNeighbor` starts it (accumulator = the head at
index 0, scanning the tail from index 1) picks an in-bounds index whose element
is closest to `cur`, with every earlier index strictly farther. -/
theorem pickNearest_step (dist : Loc → Loc → ℚ) (cur : Loc)
    (hd : AppointmentWithProperty) (tl : List AppointmentWithProperty) :
    ∃ next, (hd :: tl)[(pickNearestAux dist cur tl 1 (0, dist cur (itemLoc hd))).1]?
        = some next ∧
      (pickNearestAux dist cur tl 1 (0, dist cur (itemLoc hd))).2
        = dist cur (itemLoc next) ∧
      (∀ item ∈ hd :: tl,
        (pickNearestAux dist cur tl 1 (0, dist cur (itemLoc hd))).2
          ≤ dist cur (itemLoc item)) ∧
      ∀ k, ∀ item, (hd :: tl)[k]? = some item →
        k < (pickNearestAux dist cur tl 1 (0, dist cur (itemLoc hd))).1 →
        (pickNearestAux dist cur tl 1 (0, dist cur (itemLoc hd))).2
          < dist cur (itemLoc item) := by
  obtain ⟨h1, h2, h3, h4, h5⟩ :=
    pickNearestAux_spec dist cur tl 1 (0, dist cur (itemLoc hd)) Nat.zero_lt_one
  have hmem : ∀ item ∈ hd :: tl,
      (pickNearestAux dist cur tl 1 (0, dist cur (itemLoc hd))).2
        ≤ dist cur (itemLoc item) := by
    intro x hx
    rcases List.mem_cons.mp hx with rfl | hx
    · exact h2
    · exact h4 x hx
  have hearly : ∀ k, ∀ item, (hd :: tl)[k]? = some item →
      k < (pickNearestAux dist cur tl 1 (0, dist cur (itemLoc hd))).1 →
      (pickNearestAux dist cur tl 1 (0, dist cur (itemLoc hd))).2
        < dist cur (itemLoc item) := by
    intro k it hit hklt
    match k with
    | 0 =>
      rcases h3 with heq | ⟨hstrict, _⟩
      · rw [heq] at hklt; exact absurd hklt (by omega)
      · have : it = hd := by simpa using hit.symm
        rw [this]
        simpa using hstrict
    | k + 1 =>
      exact h5 k it (by simpa using hit) (by omega)
  rcases h3 with heq | ⟨_, k, it, hit, hidx, hval⟩
  · refine ⟨hd, ?_, ?_, hmem, hearly⟩
    · rw [heq]; simp
    · rw [heq]
  · refine ⟨it, ?_, hval, hmem, hearly⟩
    rw [hidx, Nat.add_comm]
    simpa using hit

end AgentCal

namespace AgentCal

/-- One iteration of the `while (unvisited.length > 0)` loop: the element
spliced out and prepended to the route is at minimal distance from the current
item, every unvisited item at an earlier scan index being strictly farther. -/
theorem nnLoop_step (dist : Loc → Loc → ℚ) (fuel : Nat)
    (current hd : AppointmentWithProperty) (tl : List AppointmentWithProperty) :
    ∃ next,
      (hd :: tl)[(pickNearestAux dist (itemLoc current) tl 1
          (0, dist (itemLoc current) (itemLoc hd))).1]? = some next ∧
      nnLoop dist (fuel + 1) current (hd :: tl)
        = next :: nnLoop dist fuel next
            ((hd :: tl).eraseIdx (pickNearestAux dist (itemLoc current) tl 1
              (0, dist (itemLoc current) (itemLoc hd))).1) ∧
      (∀ item ∈ hd :: tl,
        dist (itemLoc current) (itemLoc next) ≤ dist (itemLoc current) (itemLoc item)) ∧
      ∀ k, ∀ item, (hd :: tl)[k]? = some item →
        k < (pickNearestAux dist (itemLoc current) tl 1
          (0, dist (itemLoc current) (itemLoc hd))).1 →
        dist (itemLoc current) (itemLoc next) < dist (itemLoc current) (itemLoc item) := by
  obtain ⟨next, hnext, hval, hmin, hearly⟩ :=
    pickNearest_step dist (itemLoc current) hd tl
  refine ⟨next, hnext, ?_, ?_, ?_⟩
  · have hgetD : (hd :: tl).getD (pickNearestAux dist (itemLoc current) tl 1
        (0, dist (itemLoc current) (itemLoc hd))).1 hd = next := by
      rw [List.getD_eq_getElem?_getD, hnext]
      rfl
    simp only [nnLoop, hgetD]
  · intro item hitem
    have := hmin item hitem
    rwa [hval] at this
  · intro k item hk hklt
    have := hearly k item hk hklt
    rwa [hval] at this

/-- With fuel at least the number of unvisited items, the loop emits a
permutation of them (each iteration splices out exactly one item). -/
theorem nnLoop_perm (dist : Loc → Loc → ℚ) :
    ∀ (fuel : Nat) (current : AppointmentWithProperty)
      (l : List AppointmentWithProperty), l.length ≤ fuel →
      (nnLoop dist fuel current l).Perm l
  | 0, current, l, h => by
    have hl : l = [] := List.length_eq_zero.mp (Nat.le_zero.mp h)
    rw [hl]
    exact List.Perm.refl _
  | fuel + 1, current, [], _ => by
    exact List.Perm.refl _
  | fuel + 1, current, hd :: tl, h => by
    obtain ⟨next, hnext, hstep, _, _⟩ := nnLoop_step dist fuel current hd tl
    have hlt : (pickNearestAux dist (itemLoc current) tl 1
        (0, dist (itemLoc current) (itemLoc hd))).1 < (hd :: tl).length :=
      List.getElem?_eq_some.mp hnext |>.1
    have hget : (hd :: tl).get ⟨_, hlt⟩ = next := by
      have := List.getElem?_eq_some.mp hnext
      obtain ⟨_, hv⟩ := this
      simpa [List.get_eq_getElem] using hv
    have hperm1 : (hd :: tl).Perm (next :: (hd :: tl).eraseIdx
        (pickNearestAux dist (itemLoc current) tl 1
          (0, dist (itemLoc current) (itemLoc hd))).1) := by
      have := perm_get_cons_eraseIdx (hd :: tl) _ hlt
      rwa [hget] at this
    have hlen : ((hd :: tl).eraseIdx (pickNearestAux dist (itemLoc current) tl 1
        (0, dist (itemLoc current) (itemLoc hd))).1).length ≤ fuel := by
      rw [List.length_eraseIdx_of_lt hlt]
      simp only [List.length_cons] at h ⊢
      omega
    have ih := nnLoop_perm dist fuel next _ hlen
    rw [hstep]
    exact List.Perm.trans (List.Perm.cons next ih) hperm1.symm

/-- The route starts with the first item in input order. -/
theorem nearestNeighbor_head (dist : Loc → Loc → ℚ)
    (items : List AppointmentWithProperty) :
    (nearestNeighbor dist items).head? = items.head? := by
  cases items with
  | nil => rfl
  | cons first rest => rfl

/-- The route is a permutation of the input items. -/
theorem nearestNeighbor_perm (dist : Loc → Loc → ℚ)
    (items : List AppointmentWithProperty) :
    (nearestNeighbor dist items).Perm items := by
  cases items with
  | nil => exact List.Perm.refl _
  | cons first rest =>
    exact List.Perm.cons first (nnLoop_perm dist rest.length first rest (le_refl _))

/-- The stop-building loop preserves the optimized order. -/
theorem buildLegs_map (dist : Loc → Loc → ℚ) :
    ∀ (prev : AppointmentWithProperty) (l : List AppointmentWithProperty),
      ((buildLegs dist prev l).1).map stopItem = l
  | _, [] => rfl
  | prev, cur :: rest => by
    have ih := buildLegs_map dist cur rest
    simp only [buildLegs, List.map_cons, ih]
    rfl

/-- The totals are precisely the sums of the per-leg metrics. -/
theorem buildLegs_totals (dist : Loc → Loc → ℚ) :
    ∀ (prev : AppointmentWithProperty) (l : List AppointmentWithProperty),
      (buildLegs dist prev l).2.1
        = ((buildLegs dist prev l).1.filterMap (fun s => s.distanceFromPrevious)).sum ∧
      (buildLegs dist prev l).2.2
        = ((buildLegs dist prev l).1.filterMap (fun s => s.estimatedTravelTime)).sum
  | _, [] => by simp [buildLegs]
  | prev, cur :: rest => by
    have ih := buildLegs_totals dist cur rest
    simp only [buildLegs, List.filterMap_cons, List.sum_cons]
    exact ⟨by rw [ih.1], by rw [ih.2]⟩

/-- Every stop after the first carries a distance and the travel time
estimated from that same distance. -/
theorem buildLegs_tail_metrics (dist : Loc → Loc → ℚ) :
    ∀ (prev : AppointmentWithProperty) (l : List AppointmentWithProperty),
      ∀ s ∈ (buildLegs dist prev l).1,
        ∃ d, s.distanceFromPrevious = some d
          ∧ s.estimatedTravelTime = some (estimateTravelTime d)
  | _, [], _, hs => absurd hs (by simp [buildLegs])
  | prev, cur :: rest, s, hs => by
    simp only [buildLegs, List.mem_cons] at hs
    rcases hs with rfl | hs
    · exact ⟨dist (itemLoc prev) (itemLoc cur), rfl, rfl⟩
    · exact buildLegs_tail_metrics dist cur rest s hs

/-- Consecutive stops are linked by the distance between their properties and
the travel time estimated from it. -/
theorem buildLegs_chain (dist : Loc → Loc → ℚ) :
    ∀ (l : List AppointmentWithProperty) (prev : AppointmentWithProperty)
      (s : RouteStop), stopItem s = prev →
      List.Chain' (fun a b =>
        b.distanceFromPrevious
          = some (dist (itemLoc (stopItem a)) (itemLoc (stopItem b))) ∧
        b.estimatedTravelTime
          = some (estimateTravelTime (dist (itemLoc (stopItem a)) (itemLoc (stopItem b)))))
        (s :: (buildLegs dist prev l).1)
  | [], _, s, _ => by simp [buildLegs]
  | cur :: rest, prev, s, hs => by
    simp only [buildLegs]
    refine List.Chain'.cons ?_ (buildLegs_chain dist rest cur _ rfl)
    rw [← hs]
    exact ⟨rfl, rfl⟩

end AgentCal

namespace AgentCal

/-- The nearest-neighbor output of a nonempty input is nonempty. -/
theorem nearestNeighbor_ne_nil (dist : Loc → Loc → ℚ)
    {items : List AppointmentWithProperty} (h : items ≠ []) :
    nearestNeighbor dist items ≠ [] := by
  cases items with
  | nil => exact absurd rfl h
  | cons first rest => simp [nearestNeighbor]

/-- With at least two matched appointments and a nonempty valid-coordinates
subset, `optimizeRoute` takes the nearest-neighbor branch: `optimized = true`,
the stops are exactly the nearest-neighbor order of the valid items starting
with the first in input order, consecutive stops carry the leg distance and
the travel time estimated from it (the first stop carrying neither), and the
totals are the sums of the per-leg metrics. -/
theorem optimizeRoute_nn (appointments : List Appointment)
    (properties : List Property) (agent : String) (date : Nat)
    (dist : Loc → Loc → ℚ)
    (h2 : 2 ≤ (routeItems appointments properties).length)
    (hv : routeValidItems (routeItems appointments properties) ≠ []) :
    (optimizeRoute appointments properties agent date dist).optimized = true ∧
    (optimizeRoute appointments properties agent date dist).stops.map stopItem
      = nearestNeighbor dist (routeValidItems (routeItems appointments properties)) ∧
    (optimizeRoute appointments properties agent date dist).stops.head?
      = (routeValidItems (routeItems appointments properties)).head?.map noMetricsStop ∧
    List.Chain' (fun a b =>
      b.distanceFromPrevious
        = some (dist (itemLoc (stopItem a)) (itemLoc (stopItem b))) ∧
      b.estimatedTravelTime
        = some (estimateTravelTime (dist (itemLoc (stopItem a)) (itemLoc (stopItem b)))))
      (optimizeRoute appointments properties agent date dist).stops ∧
    (∀ s ∈ (optimizeRoute appointments properties agent date dist).stops.tail,
      ∃ d, s.distanceFromPrevious = some d
        ∧ s.estimatedTravelTime = some (estimateTravelTime d)) ∧
    (optimizeRoute appointments properties agent date dist).totalDistance
      = ((optimizeRoute appointments properties agent date dist).stops.filterMap
          (fun s => s.distanceFromPrevious)).sum ∧
    (optimizeRoute appointments properties agent date dist).totalTravelTime
      = ((optimizeRoute appointments properties agent date dist).stops.filterMap
          (fun s => s.estimatedTravelTime)).sum := by
  have h0 : ¬ (routeItems appointments properties).length = 0 := by omega
  have h1 : ¬ (routeItems appointments properties).length = 1 := by omega
  have hvlen : ¬ (routeValidItems (routeItems appointments properties)).length = 0 :=
    fun hc => hv (List.length_eq_zero.mp hc)
  obtain ⟨first, rest, hnn⟩ := List.exists_cons_of_ne_nil
    (nearestNeighbor_ne_nil dist hv)
  have hR : optimizeRoute appointments properties agent date dist
      = { date := date, agent := agent,
          stops := noMetricsStop first
            :: (buildLegs dist first rest).1,
          totalDistance := (buildLegs dist first rest).2.1,
          totalTravelTime := (buildLegs dist first rest).2.2,
          optimized := true } := by
    unfold optimizeRoute
    rw [if_neg h0, if_neg h1, if_neg hvlen, hnn]
  rw [hR]
  refine ⟨rfl, ?_, ?_, ?_, ?_, ?_, ?_⟩
  · simp only [List.map_cons, buildLegs_map dist first rest]
    rw [hnn]
    rfl
  · have := nearestNeighbor_head dist (routeValidItems (routeItems appointments properties))
    rw [hnn] at this
    simp [← this]
  · exact buildLegs_chain dist rest first (noMetricsStop first) rfl
  · exact buildLegs_tail_metrics dist first rest
  · simp only [List.filterMap_cons]
    exact (buildLegs_totals dist first rest).1
  · simp only [List.filterMap_cons]
    exact (buildLegs_totals dist first rest).2

/-- With at least two matched appointments none of which has coordinates,
`optimizeRoute` returns the stops in input order with no metrics, zero totals
and `optimized = false`. -/
theorem optimizeRoute_fallback (appointments : List Appointment)
    (properties : List Property) (agent : String) (date : Nat)
    (dist : Loc → Loc → ℚ)
    (h2 : 2 ≤ (routeItems appointments properties).length)
    (hnone : ∀ item ∈ routeItems appointments properties,
      item.property.coords = none) :
    optimizeRoute appointments properties agent date dist
      = { date := date, agent := agent,
          stops := (routeItems appointments properties).map noMetricsStop,
          totalDistance := 0, totalTravelTime := 0, optimized := false } := by
  have h0 : ¬ (routeItems appointments properties).length = 0 := by omega
  have h1 : ¬ (routeItems appointments properties).length = 1 := by omega
  have hvnil : routeValidItems (routeItems appointments properties) = [] := by
    refine List.filter_eq_nil_iff.mpr ?_
    intro item hitem
    rw [hnone item hitem]
    simp
  have hvlen : (routeValidItems (routeItems appointments properties)).length = 0 := by
    rw [hvnil]
    rfl
  unfold optimizeRoute
  rw [if_neg h0, if_neg h1, if_pos hvlen]

end AgentCal

namespace AgentCal

/-- A single matched appointment takes the shortcut branch, which agrees with
the (trivial) nearest-neighbor order whenever its property has coordinates. -/
theorem optimizeRoute_single (appointments : List Appointment)
    (properties : List Property) (agent : String) (date : Nat)
    (dist : Loc → Loc → ℚ)
    (h1 : (routeItems appointments properties).length = 1)
    (hv : routeValidItems (routeItems appointments properties) ≠ []) :
    (optimizeRoute appointments properties agent date dist).optimized = true ∧
    (optimizeRoute appointments properties agent date dist).stops.map stopItem
      = nearestNeighbor dist (routeValidItems (routeItems appointments properties)) ∧
    (optimizeRoute appointments properties agent date dist).totalDistance = 0 ∧
    (optimizeRoute appointments properties agent date dist).totalTravelTime = 0 := by
  obtain ⟨x, hx⟩ := List.length_eq_one.mp h1
  have h0 : ¬ (routeItems appointments properties).length = 0 := by omega
  have hR : optimizeRoute appointments properties agent date dist
      = { date := date, agent := agent,
          stops := (routeItems appointments properties).map noMetricsStop,
          totalDistance := 0, totalTravelTime := 0, optimized := true } := by
    unfold optimizeRoute
    rw [if_neg h0, if_pos h1]
  have hval : routeValidItems (routeItems appointments properties)
      = routeItems appointments properties := by
    rw [hx]
    rw [hx] at hv
    unfold routeValidItems at hv ⊢
    cases hc : x.property.coords.isSome with
    | true => simp [List.filter, hc]
    | false => simp [List.filter, hc] at hv
  rw [hR, hval, hx]
  exact ⟨rfl, rfl, rfl, rfl⟩

/-- Claim C4: when at least one matched appointment's property has coordinates,
`optimizeRoute` orders the stops by the nearest-neighbor
heuristic (a single matched appointment taking the shortcut branch, which
agrees with the trivial nearest-neighbor order): the route starts with the
first item in input order, each loop
iteration appends the unvisited item at minimum distance from the current one
with ties broken by the first found in scan order, consecutive stops carry the
per-leg distance and the travel time estimated from it (the first stop
carrying neither), the totals are the sums of the per-leg metrics, and
`optimized = true`; on the concrete collinear configuration A at 0 km, B at
10 km, C at 30 km, the visit order is A, B, C with total distance 30 km. -/
theorem c4_nearest_neighbor_route :
    (∀ (appointments : List Appointment) (properties : List Property)
        (agent : String) (date : Nat) (dist : Loc → Loc → ℚ),
      2 ≤ (routeItems appointments properties).length →
      routeValidItems (routeItems appointments properties) ≠ [] →
      (optimizeRoute appointments properties agent date dist).optimized = true ∧
      (optimizeRoute appointments properties agent date dist).stops.map stopItem
        = nearestNeighbor dist (routeValidItems (routeItems appointments properties)) ∧
      (optimizeRoute appointments properties agent date dist).stops.head?
        = (routeValidItems (routeItems appointments properties)).head?.map noMetricsStop ∧
      List.Chain' (fun a b =>
        b.distanceFromPrevious
          = some (dist (itemLoc (stopItem a)) (itemLoc (stopItem b))) ∧
        b.estimatedTravelTime
          = some (estimateTravelTime (dist (itemLoc (stopItem a)) (itemLoc (stopItem b)))))
        (optimizeRoute appointments properties agent date dist).stops ∧
      (∀ s ∈ (optimizeRoute appointments properties agent date dist).stops.tail,
        ∃ d, s.distanceFromPrevious = some d
          ∧ s.estimatedTravelTime = some (estimateTravelTime d)) ∧
      (optimizeRoute appointments properties agent date dist).totalDistance
        = ((optimizeRoute appointments properties agent date dist).stops.filterMap
            (fun s => s.distanceFromPrevious)).sum ∧
      (optimizeRoute appointments properties agent date dist).totalTravelTime
        = ((optimizeRoute appointments properties agent date dist).stops.filterMap
            (fun s => s.estimatedTravelTime)).sum) ∧
    (∀ (appointments : List Appointment) (properties : List Property)
        (agent : String) (date : Nat) (dist : Loc → Loc → ℚ),
      (routeItems appointments properties).length = 1 →
      routeValidItems (routeItems appointments properties) ≠ [] →
      (optimizeRoute appointments properties agent date dist).optimized = true ∧
      (optimizeRoute appointments properties agent date dist).stops.map stopItem
        = nearestNeighbor dist (routeValidItems (routeItems appointments properties)) ∧
      (optimizeRoute appointments properties agent date dist).totalDistance = 0 ∧
      (optimizeRoute appointments properties agent date dist).totalTravelTime = 0) ∧
    (∀ (dist : Loc → Loc → ℚ) (items : List AppointmentWithProperty),
      (nearestNeighbor dist items).head? = items.head? ∧
      (nearestNeighbor dist items).Perm items) ∧
    (∀ (dist : Loc → Loc → ℚ) (fuel : Nat)
        (current hd : AppointmentWithProperty)
        (tl : List AppointmentWithProperty),
      ∃ next idx, (hd :: tl)[idx]? = some next ∧
        nnLoop dist (fuel + 1) current (hd :: tl)
          = next :: nnLoop dist fuel next ((hd :: tl).eraseIdx idx) ∧
        (∀ item ∈ hd :: tl, dist (itemLoc current) (itemLoc next)
          ≤ dist (itemLoc current) (itemLoc item)) ∧
        (∀ k, ∀ item, (hd :: tl)[k]? = some item → k < idx →
          dist (itemLoc current) (itemLoc next)
            < dist (itemLoc current) (itemLoc item))) ∧
    (optimizeRoute c4Apts c4Props "a" 0 distTable).stops.map
        (fun s => s.property.id) = ["A", "B", "C"] ∧
    (optimizeRoute c4Apts c4Props "a" 0 distTable).totalDistance = 30 := by
  refine ⟨?_, ?_, ?_, ?_, ?_, ?_⟩
  · intro appointments properties agent date dist h2 hv
    exact optimizeRoute_nn appointments properties agent date dist h2 hv
  · intro appointments properties agent date dist h1 hv
    exact optimizeRoute_single appointments properties agent date dist h1 hv
  · intro dist items
    exact ⟨nearestNeighbor_head dist items, nearestNeighbor_perm dist items⟩
  · intro dist fuel current hd tl
    obtain ⟨next, hnext, hstep, hmin, hearly⟩ := nnLoop_step dist fuel current hd tl
    exact ⟨next, _, hnext, hstep, hmin, hearly⟩
  · decide
  · have h : (optimizeRoute c4Apts c4Props "a" 0 distTable).totalDistance
        = distTable locA4 locB4 + (distTable locB4 locC4 + 0) := rfl
    rw [h]
    norm_num [distTable, locA4, locB4, locC4]

/-- Witness: the hypotheses of the nearest-neighbor branch hold on the
concrete collinear inputs, and the branch reports `optimized = true`. -/
theorem c4_nearest_neighbor_route_witness :
    2 ≤ (routeItems c4Apts c4Props).length ∧
    routeValidItems (routeItems c4Apts c4Props) ≠ [] ∧
    (optimizeRoute c4Apts c4Props "a" 0 distTable).optimized = true :=
  ⟨by decide, by decide,
    (c4_nearest_neighbor_route.1 c4Apts c4Props "a" 0 distTable
      (by decide) (by decide)).1⟩

/-- Claim C10 counterexample: a run whose only matched appointment's property
has no coordinates — so no property has coordinates — in which `optimizeRoute`
nevertheless reports `optimized = true` through the single-appointment
shortcut, instead of the claimed input-order fallback with
`optimized = false`. -/
theorem c10_no_coords_counterexample :
    (∀ item ∈ routeItems [aptNC10] [prNC10], item.property.coords = none) ∧
    (optimizeRoute [aptNC10] [prNC10] "a" 0 (fun _ _ => 0)).optimized = true := by
  constructor
  · decide
  · rfl

/-- Claim C10 amended: restricted to runs with at least two matched
appointments, if no property has coordinates `optimizeRoute` returns the stops
in input order with no metrics, zero totals and `optimized = false`; and
whenever some property has coordinates the fallback is not used: the run is
reported `optimized = true` with the stops being exactly the nearest-neighbor
order of the coordinate-bearing items, every stop having coordinates. -/
theorem c10_fallback_amended (appointments : List Appointment)
    (properties : List Property) (agent : String) (date : Nat)
    (dist : Loc → Loc → ℚ)
    (h2 : 2 ≤ (routeItems appointments properties).length) :
    ((∀ item ∈ routeItems appointments properties, item.property.coords = none) →
      (optimizeRoute appointments properties agent date dist).stops
        = (routeItems appointments properties).map noMetricsStop ∧
      (optimizeRoute appointments properties agent date dist).totalDistance = 0 ∧
      (optimizeRoute appointments properties agent date dist).totalTravelTime = 0 ∧
      (optimizeRoute appointments properties agent date dist).optimized = false) ∧
    (routeValidItems (routeItems appointments properties) ≠ [] →
      (optimizeRoute appointments properties agent date dist).optimized = true ∧
      (optimizeRoute appointments properties agent date dist).stops.map stopItem
        = nearestNeighbor dist (routeValidItems (routeItems appointments properties)) ∧
      ∀ item ∈ (optimizeRoute appointments properties agent date dist).stops.map stopItem,
        item.property.coords.isSome = true) := by
  constructor
  · intro hnone
    rw [optimizeRoute_fallback appointments properties agent date dist h2 hnone]
    exact ⟨rfl, rfl, rfl, rfl⟩
  · intro hv
    obtain ⟨hopt, hmap, _⟩ := optimizeRoute_nn appointments properties agent date dist h2 hv
    refine ⟨hopt, hmap, ?_⟩
    intro item hitem
    rw [hmap] at hitem
    have hmem := (nearestNeighbor_perm dist
      (routeValidItems (routeItems appointments properties))).mem_iff.mp hitem
    simpa using List.of_mem_filter hmem

/-- Witness: on a two-appointment input where exactly one property has
coordinates, the amended claim applies and yields the distance-aware branch. -/
theorem c10_fallback_amended_witness :
    2 ≤ (routeItems [aptA4, aptNC10] [prA4, prNC10]).length ∧
    (optimizeRoute [aptA4, aptNC10] [prA4, prNC10] "a" 0 (fun _ _ => 0)).optimized
      = true ∧
    (optimizeRoute [aptA4, aptNC10] [prA4, prNC10] "a" 0 (fun _ _ => 0)).stops.map
        stopItem
      = nearestNeighbor (fun _ _ => 0)
          (routeValidItems (routeItems [aptA4, aptNC10] [prA4, prNC10])) :=
  ⟨by decide,
    ((c10_fallback_amended [aptA4, aptNC10] [prA4, prNC10] "a" 0 (fun _ _ => 0)
      (by decide)).2 (by decide)).1,
    ((c10_fallback_amended [aptA4, aptNC10] [prA4, prNC10] "a" 0 (fun _ _ => 0)
      (by decide)).2 (by decide)).2.1⟩

end AgentCal
